import Mathlib

/-!
# StlSnippets: a verification development

The repository is seven independent C++ programs (001_main.cpp to 007_main.cpp), each a
main function that builds a standard container, mutates it and prints it.

Embedding.
* A program is a function from a loop budget (fuel) to an outcome `Exec`: a result, a
  budget overrun, or undefined behaviour (an invalid iterator or index, signed overflow).
  Every loop spends one unit of fuel per execution of its body, so the fuel a loop needs
  is the number of iterations it performs.
* Standard output is the sequence of operands inserted with `<<`; `render` turns it into
  the printed text.
* A sequence container (std::vector, std::list) is the list of its elements, an iterator is
  the position it designates (end() is the length).  A std::map is the list of its entries
  in key order.
* int, long and size_t values are mathematical integers; where the programs do arithmetic
  on them (007_main.cpp) the range is checked explicitly.
* Library calls (std::remove, list::remove, map::erase, ...) follow the algorithm of the
  C++ standard library they are compiled against, each cited at its definition.
-/

namespace StlSnippets

/-! ## Execution outcomes and loops -/

/-- Outcome of running a piece of code under a loop budget. -/
inductive Exec (α : Type) where
  | ok (a : α)
  | outOfFuel
  | undefinedBehaviour
  deriving DecidableEq, Repr

namespace Exec

/-- Sequencing: a fault of the first part is the fault of the whole. -/
def bind {α β : Type} (x : Exec α) (f : α → Exec β) : Exec β :=
  match x with
  | ok a => f a
  | outOfFuel => outOfFuel
  | undefinedBehaviour => undefinedBehaviour

instance : Monad Exec where
  pure := Exec.ok
  bind := Exec.bind

end Exec

/-- A C++ loop `for (...; cond; ) body` or `while (cond) body` over the loop state `σ`.
Each execution of the body costs one unit of fuel; the loop ends when `cond` is false. -/
def whileLoop {σ : Type} (cond : σ → Exec Bool) (body : σ → Exec σ) : Nat → σ → Exec σ
  | 0, s =>
    (cond s).bind fun c => if c then Exec.outOfFuel else Exec.ok s
  | fuel + 1, s =>
    (cond s).bind fun c => if c then (body s).bind (whileLoop cond body fuel) else Exec.ok s

/-- Number of times the body of the loop `whileLoop cond body` is executed. -/
def whileIters {σ : Type} (cond : σ → Exec Bool) (body : σ → Exec σ) : Nat → σ → Exec Nat
  | 0, s =>
    (cond s).bind fun c => if c then Exec.outOfFuel else Exec.ok 0
  | fuel + 1, s =>
    (cond s).bind fun c =>
      if c then (body s).bind fun s' => (whileIters cond body fuel s').bind fun n => Exec.ok (n + 1)
      else Exec.ok 0

/-! ## Standard output -/

/-- One operand inserted into std::cout. -/
inductive Tok where
  | str (s : String)
  | int (n : Int)
  | endl
  deriving DecidableEq, Repr

/-- Text that an inserted operand produces. -/
def Tok.render : Tok → String
  | .str s => s
  | .int n => toString n
  | .endl => "\n"

/-- Standard output: the operands inserted so far, oldest first. -/
abbrev Stdout := List Tok

/-- Printed text of an output sequence. -/
def render (out : Stdout) : String := String.join (out.map Tok.render)

/-- EXIT_SUCCESS of <cstdlib>. -/
def EXIT_SUCCESS : Int := 0

/-! ## Memory access through iterators and indices -/

/-- Read through an iterator or index `i` of a sequence: `*i`, `v [i]`.  Reading at or past
end() is undefined behaviour. -/
def deref {α : Type} (v : List α) (i : Nat) : Exec α :=
  match v[i]? with
  | some x => Exec.ok x
  | none => Exec.undefinedBehaviour

/-- Write through an iterator: `*i = x`. -/
def assign {α : Type} (v : List α) (i : Nat) (x : α) : Exec (List α) :=
  if i < v.length then Exec.ok (v.set i x) else Exec.undefinedBehaviour

/-! ## Library algorithms and container members -/

namespace Stl

/-- The member vector::push_back: the new element becomes the last one. -/
def push_back {α : Type} (v : List α) (x : α) : List α := v ++ [x]

/-- Condition `__first != __last && !__pred(__first)` of the loop of std::find_if
(libstdc++ bits/stl_algobase.h, `__find_if`); `&&` evaluates its right operand only when
the left one holds. -/
def findIfCond {α : Type} (v : List α) (last : Nat) (pred : α → Bool) (first : Nat) :
    Exec Bool :=
  if first != last then do
    let x ← deref v first
    pure (!pred x)
  else
    pure false

/-- Body `++__first;` of the loop of std::find_if. -/
def findIfBody (first : Nat) : Exec Nat := pure (first + 1)

/-- The algorithm std::find_if (libstdc++ `__find_if`):
```
while (__first != __last && !__pred(__first)) ++__first;
return __first;
```
For random access iterators libstdc++ runs the same loop unrolled four times. -/
def find_if {α : Type} (fuel : Nat) (v : List α) (first last : Nat) (pred : α → Bool) :
    Exec Nat :=
  whileLoop (findIfCond v last pred) findIfBody fuel first

/-- Loop state of std::remove_if: the sequence and the iterators `__first`, `__result`. -/
structure RemoveIfState (α : Type) where
  v : List α
  first : Nat
  result : Nat

/-- Condition `__first != __last` of the second loop of std::remove_if. -/
def removeIfCond {α : Type} (last : Nat) (s : RemoveIfState α) : Exec Bool :=
  pure (s.first != last)

/-- Body of the second loop of std::remove_if, followed by its increment `++__first`:
```
if (!__pred(__first)) { *__result = _GLIBCXX_MOVE(*__first); ++__result; }
```
Moving an int or a long copies it. -/
def removeIfBody {α : Type} (pred : α → Bool) (s : RemoveIfState α) :
    Exec (RemoveIfState α) := do
  let x ← deref s.v s.first
  if !pred x then
    let y ← deref s.v s.first
    let v ← assign s.v s.result y
    pure { v := v, first := s.first + 1, result := s.result + 1 }
  else
    pure { v := s.v, first := s.first + 1, result := s.result }

/-- The algorithm std::remove_if (libstdc++ bits/stl_algobase.h, `__remove_if`):
```
__first = std::__find_if(__first, __last, __pred);
if (__first == __last) return __first;
_ForwardIterator __result = __first;
++__first;
for (; __first != __last; ++__first) ...
return __result;
```
The result is the sequence as the algorithm leaves it and the returned iterator. -/
def remove_if {α : Type} (fuel : Nat) (v : List α) (first last : Nat) (pred : α → Bool) :
    Exec (List α × Nat) := do
  let first ← find_if fuel v first last pred
  if first == last then
    pure (v, first)
  else
    let result := first
    let first := first + 1
    let s ← whileLoop (removeIfCond last) (removeIfBody pred) fuel
      { v := v, first := first, result := result }
    pure (s.v, s.result)

/-- The algorithm std::remove: std::remove_if with the predicate `*it == value`. -/
def remove (fuel : Nat) (v : List Int) (first last : Nat) (value : Int) :
    Exec (List Int × Nat) :=
  remove_if fuel v first last (fun x => x == value)

/-- The member vector::erase (first, last) (libstdc++ bits/vector.tcc, `_M_erase`): the
elements from `last` on are moved down to `first` and the vector is cut after them.  A range
that is not inside the vector is undefined behaviour. -/
def vector_erase {α : Type} (v : List α) (first last : Nat) : Exec (List α) :=
  if first ≤ last ∧ last ≤ v.length then
    pure (v.take first ++ v.drop last)
  else
    Exec.undefinedBehaviour

/-- The member map::insert (value) of a std::map ordered by `lt`: the entry goes to its place
in key order, unless an entry with an equivalent key (neither less than the other) is
there. -/
def map_insert {κ ν : Type} (lt : κ → κ → Bool) (m : List (κ × ν)) (kv : κ × ν) :
    List (κ × ν) :=
  match m with
  | [] => [kv]
  | e :: rest =>
    if lt kv.1 e.1 then kv :: e :: rest
    else if lt e.1 kv.1 then e :: map_insert lt rest kv
    else e :: rest

/-- Constructor of std::map from an initializer list: the entries are inserted in turn. -/
def map_of_list {κ ν : Type} (lt : κ → κ → Bool) (init : List (κ × ν)) : List (κ × ν) :=
  init.foldl (map_insert lt) []

/-- The member map::erase (iterator): the entry at `it` is removed and the iterator to the
entry that followed it is returned, which is position `it` of the new map.  Erasing end()
is undefined behaviour. -/
def map_erase {κ ν : Type} (m : List (κ × ν)) (it : Nat) : Exec (List (κ × ν) × Nat) :=
  if it < m.length then pure (m.eraseIdx it, it) else Exec.undefinedBehaviour

/-- Loop state of std::list::remove: the list and the iterator `__first`. -/
structure ListRemoveState where
  l : List Int
  first : Nat

/-- Condition `__first != __last` of the loop of std::list::remove.  `__last` is end(), the
sentinel node, whose position is the current length of the list. -/
def listRemoveCond (s : ListRemoveState) : Exec Bool :=
  pure (s.first != s.l.length)

/-- Body of the loop of std::list::remove (libstdc++ bits/list.tcc):
```
iterator __next = __first; ++__next;
if (*__first == __value) /* unlink the node __first */;
__first = __next;
```
`__next` designates the node after `__first`.  When the node `__first` is unlinked, every
later node moves one position down, so `__next` is then at the position that `__first` had;
otherwise it is at the next position. -/
def listRemoveBody (value : Int) (s : ListRemoveState) : Exec ListRemoveState := do
  let x ← deref s.l s.first
  if x == value then
    pure { l := s.l.eraseIdx s.first, first := s.first }
  else
    pure { l := s.l, first := s.first + 1 }

/-- The member std::list<int>::remove (libstdc++ bits/list.tcc):
```
iterator __first = begin(); iterator __last = end();
while (__first != __last) { ... }
```
The list left behind is the result. -/
def list_remove (fuel : Nat) (l : List Int) (value : Int) : Exec (List Int) := do
  let s ← whileLoop listRemoveCond (listRemoveBody value) fuel { l := l, first := 0 }
  pure s.l

/-- Loop state of std::fill: the sequence and the iterator `__first`. -/
structure FillState (α : Type) where
  v : List α
  first : Nat

/-- The algorithm std::fill (libstdc++ bits/stl_algobase.h, `__fill_a1`):
```
const _Tp __tmp = __value;
for (; __first != __last; ++__first) *__first = __tmp;
```
-/
def fill {α : Type} (fuel : Nat) (v : List α) (first last : Nat) (value : α) :
    Exec (List α) := do
  let tmp := value
  let s ← whileLoop
    (fun s : FillState α => pure (s.first != last))
    (fun s => do
      let v ← assign s.v s.first tmp
      pure { v := v, first := s.first + 1 })
    fuel { v := v, first := first }
  pure s.v

/-- Loop state of std::accumulate: the iterator `__first` and the accumulator `__init`. -/
structure AccumulateState (β : Type) where
  first : Nat
  init : β

/-- The algorithm std::accumulate (libstdc++ bits/stl_numeric.h):
```
for (; __first != __last; ++__first) __init = __binary_op(__init, *__first);
return __init;
```
`binary_op` includes the conversion of its result to the type of `__init`. -/
def accumulate {α β : Type} (fuel : Nat) (v : List α) (first last : Nat) (init : β)
    (binary_op : β → α → Exec β) : Exec β := do
  let s ← whileLoop
    (fun s : AccumulateState β => pure (s.first != last))
    (fun s => do
      let x ← deref v s.first
      let init ← binary_op s.init x
      pure { first := s.first + 1, init := init })
    fuel { first := first, init := init }
  pure s.init

/-- Loop state of std::generate: the sequence, the iterator `__first` and the state `g` that
the generator keeps between calls. -/
structure GenerateState (α γ : Type) where
  v : List α
  first : Nat
  g : γ

/-- The algorithm std::generate (libstdc++ bits/stl_algo.h):
```
for (; __first != __last; ++__first) *__first = __gen();
```
A call of the generator maps its state `g` to the value returned and the new state. -/
def generate {α γ : Type} (fuel : Nat) (v : List α) (first last : Nat)
    (gen : γ → Exec (α × γ)) (g : γ) : Exec (List α) := do
  let s ← whileLoop
    (fun s : GenerateState α γ => pure (s.first != last))
    (fun s => do
      let (x, g) ← gen s.g
      let v ← assign s.v s.first x
      pure { v := v, first := s.first + 1, g := g })
    fuel { v := v, first := first, g := g }
  pure s.v

/-- Contract of std::sort (first, last, comp) in the C++ standard, for the comparison
`comp`: the range holds a permutation of its old contents, and it is sorted with respect to
`comp`, that is, `comp` is false of an element and any element before it. -/
def SortContract (sort : (Int → Int → Bool) → List Int → List Int)
    (comp : Int → Int → Bool) : Prop :=
  ∀ l : List Int, (sort comp l).Perm l ∧ (sort comp l).Pairwise (fun a b => comp b a = false)

end Stl

/-! ## 001_main.cpp: six ways to iterate a vector -/

namespace Main001

/-- Loop state of the six loops: the loop variable `i` (an index, an iterator or the range
iterator of a range-based for) and the output. -/
structure LoopState where
  i : Nat
  out : Stdout

/-- Loop 1, `for (size_t i = 0; i < v.size (); ++i) { std::cout << v [i]; }`. -/
def loop1 (fuel : Nat) (v : List Int) (out : Stdout) : Exec Stdout := do
  let s ← whileLoop
    (fun s : LoopState => pure (decide (s.i < v.length)))
    (fun s => do
      let x ← deref v s.i
      pure { i := s.i + 1, out := s.out ++ [Tok.int x] })
    fuel { i := 0, out := out }
  pure s.out

/-- Range-based for over the vector, `for (T i : v) { std::cout << i; }`, which the language
defines as
```
auto __begin = v.begin (), __end = v.end ();
for (; __begin != __end; ++__begin) { T i = *__begin; std::cout << i; }
```
`__end` is called `last` here. -/
def rangeFor (fuel : Nat) (v : List Int) (out : Stdout) : Exec Stdout := do
  let last := v.length
  let s ← whileLoop
    (fun s : LoopState => pure (s.i != last))
    (fun s => do
      let i ← deref v s.i
      pure { i := s.i + 1, out := s.out ++ [Tok.int i] })
    fuel { i := 0, out := out }
  pure s.out

/-- Loop 2, `for (int i : v) { std::cout << i; }`. -/
def loop2 (fuel : Nat) (v : List Int) (out : Stdout) : Exec Stdout :=
  rangeFor fuel v out

/-- Loop 3, `for (auto i : v) { std::cout << i; }`; `auto` is deduced as int. -/
def loop3 (fuel : Nat) (v : List Int) (out : Stdout) : Exec Stdout :=
  rangeFor fuel v out

/-- Loop 4,
`for (std::vector <int>::iterator i = v.begin (); i < v.end (); ++i) { std::cout << * i; }`. -/
def loop4 (fuel : Nat) (v : List Int) (out : Stdout) : Exec Stdout := do
  let s ← whileLoop
    (fun s : LoopState => pure (decide (s.i < v.length)))
    (fun s => do
      let x ← deref v s.i
      pure { i := s.i + 1, out := s.out ++ [Tok.int x] })
    fuel { i := 0, out := out }
  pure s.out

/-- Loop 5, `for (auto i = v.begin (); i != v.end (); ++i) { std::cout << * i; }`. -/
def loop5 (fuel : Nat) (v : List Int) (out : Stdout) : Exec Stdout := do
  let s ← whileLoop
    (fun s : LoopState => pure (s.i != v.length))
    (fun s => do
      let x ← deref v s.i
      pure { i := s.i + 1, out := s.out ++ [Tok.int x] })
    fuel { i := 0, out := out }
  pure s.out

/-- Loop 6, `for (size_t i = 0; i < v.size (); ++i) { std::cout << * (v.data () + i); }`;
`v.data ()` points to the first element, so `v.data () + i` points to element `0 + i`. -/
def loop6 (fuel : Nat) (v : List Int) (out : Stdout) : Exec Stdout := do
  let data := 0
  let s ← whileLoop
    (fun s : LoopState => pure (decide (s.i < v.length)))
    (fun s => do
      let x ← deref v (data + s.i)
      pure { i := s.i + 1, out := s.out ++ [Tok.int x] })
    fuel { i := 0, out := out }
  pure s.out

/-- The vector that main builds with four calls of push_back. -/
def initial : List Int :=
  Stl.push_back (Stl.push_back (Stl.push_back (Stl.push_back [] 0) 4) 1) 2

/-- The function main of 001_main.cpp; the result is the output and the exit code. -/
def main (fuel : Nat) : Exec (Stdout × Int) := do
  let v := initial
  let out ← loop1 fuel v [Tok.str "1: "]
  let out := out ++ [Tok.endl]
  let out ← loop2 fuel v (out ++ [Tok.str "2: "])
  let out := out ++ [Tok.endl]
  let out ← loop3 fuel v (out ++ [Tok.str "3: "])
  let out := out ++ [Tok.endl]
  let out ← loop4 fuel v (out ++ [Tok.str "4: "])
  let out := out ++ [Tok.endl]
  let out ← loop5 fuel v (out ++ [Tok.str "5: "])
  let out := out ++ [Tok.endl]
  let out ← loop6 fuel v (out ++ [Tok.str "6: "])
  let out := out ++ [Tok.endl]
  pure (out, EXIT_SUCCESS)

end Main001

/-! ## 002_main.cpp: the CopyConstructible requirement -/

namespace Main002

/-- The struct Person of 002_main.cpp; `name` is a C string pointer, `none` is nullptr. -/
structure Person where
  name : Option String := none
  deriving DecidableEq, Repr

/-- The function main of 002_main.cpp.  It has no loop and prints nothing; a shared pointer
is represented by the object it owns. -/
def main (_fuel : Nat) : Exec (Stdout × Int) := do
  let _v : List Person := []
  let p : List Person := []
  let _p := Stl.push_back p ({} : Person)
  pure ([], EXIT_SUCCESS)

end Main002

/-! ## 003_main.cpp: std::list, remove -/

namespace Main003

/-- Loop state of `Print`: the iterator `it` and the output. -/
structure PrintState where
  it : Nat
  out : Stdout

/-- Condition `it != l.end ()` of the loop of `Print`. -/
def printCond (l : List Int) (s : PrintState) : Exec Bool :=
  pure (s.it != l.length)

/-- Body `std::cout << * it;` of the loop of `Print`, followed by its increment `++it`. -/
def printBody (l : List Int) (s : PrintState) : Exec PrintState := do
  let x ← deref l s.it
  pure { it := s.it + 1, out := s.out ++ [Tok.int x] }

/-- Helper `Print` of 003_main.cpp:
```
std::cout << prefix << std::endl;
for (auto it = l.begin (); it != l.end (); ++it) { std::cout << * it; }
std::cout << std::endl;
```
The parameter is called `pfx` because its source name is a reserved word. -/
def Print (fuel : Nat) (pfx : String) (l : List Int) (out : Stdout) : Exec Stdout := do
  let out := out ++ [Tok.str pfx, Tok.endl]
  let s ← whileLoop (printCond l) (printBody l) fuel { it := 0, out := out }
  pure (s.out ++ [Tok.endl])

/-- The function main of 003_main.cpp; the result is the output and the exit code. -/
def main (fuel : Nat) : Exec (Stdout × Int) := do
  let l : List Int := [0, 4, 1, 2]
  let out ← Print fuel "Init." l []
  let l ← Stl.list_remove fuel l 4
  let out ← Print fuel "After remove." l out
  pure (out, EXIT_SUCCESS)

end Main003

/-! ## 004_main.cpp: the Compare requirement -/

namespace Main004

/-- A std::string: its chars, each as the value of its unsigned char. -/
abbrev CppString := List (Fin 256)

/-- The function char_traits<char>::compare (s1, s2, n): the first `n` chars are compared as
unsigned chars; the result is negative, zero or positive.  Callers pass an `n` that is at
most both lengths. -/
def traits_compare : CppString → CppString → Nat → Int
  | a :: s1, b :: s2, n + 1 =>
    if a < b then -1 else if b < a then 1 else traits_compare s1 s2 n
  | _, _, _ => 0

/-- INT_MAX of <climits>. -/
def INT_MAX : Int := 2147483647

/-- INT_MIN of <climits>. -/
def INT_MIN : Int := -2147483648

/-- The function basic_string::_S_compare (libstdc++ bits/basic_string.h): the difference of
two sizes, clamped to the range of int. -/
def S_compare (n1 n2 : Nat) : Int :=
  let d : Int := (n1 : Int) - (n2 : Int)
  if d > INT_MAX then INT_MAX
  else if d < INT_MIN then INT_MIN
  else d

/-- The member basic_string::compare (libstdc++ bits/basic_string.h):
```
const size_type __len = std::min(__size, __osize);
int __r = traits_type::compare(_M_data(), __str.data(), __len);
if (!__r) __r = _S_compare(__size, __osize);
return __r;
```
-/
def string_compare (lhs rhs : CppString) : Int :=
  let len := min lhs.length rhs.length
  let r := traits_compare lhs rhs len
  if r = 0 then S_compare lhs.length rhs.length else r

/-- The operator == of std::string (libstdc++): equal sizes and `compare` over that size
gives zero. -/
def string_eq (lhs rhs : CppString) : Bool :=
  lhs.length == rhs.length && traits_compare lhs rhs lhs.length == 0

/-- The operator < of std::string (libstdc++): `__lhs.compare(__rhs) < 0`. -/
def string_lt (lhs rhs : CppString) : Bool :=
  decide (string_compare lhs rhs < 0)

/-- The struct Id of 004_main.cpp.  The member `pfx` is `prefix` in the source, a reserved
word here; `number` is an unsigned. -/
structure Id where
  pfx : CppString
  number : Nat
  deriving DecidableEq, Repr

/-- The struct Person of 004_main.cpp. -/
structure Person where
  name : CppString
  deriving DecidableEq, Repr

/-- The operator < on Id of 004_main.cpp:
```
if (a.prefix == b.prefix) { return a.number < b.number; }
return a.prefix < b.prefix;
```
-/
def Id.lt (a b : Id) : Bool :=
  if string_eq a.pfx b.pfx then
    decide (a.number < b.number)
  else
    string_lt a.pfx b.pfx

/-- The function main of 004_main.cpp.  It has no loop and prints nothing.  The string
literals are "BC" (66, 67) and "CD" (67, 68). -/
def main (_fuel : Nat) : Exec (Stdout × Int) := do
  let m : List (Id × Person) := []
  let m := Stl.map_insert Id.lt m ({ pfx := [66, 67], number := 223355 }, { name := [] })
  let _m := Stl.map_insert Id.lt m ({ pfx := [67, 68], number := 678543 }, { name := [] })
  pure ([], EXIT_SUCCESS)

end Main004

/-! ## 005_main.cpp: erasing from a map -/

namespace Main005

/-- Order std::less<int> of the keys of the map. -/
def less (a b : Int) : Bool := decide (a < b)

/-- Loop state of `Print`: the iterator `it` and the output. -/
structure PrintState where
  it : Nat
  out : Stdout

/-- Condition `it != m.end ()` of the loop of `Print`. -/
def printCond (m : List (Int × String)) (s : PrintState) : Exec Bool :=
  pure (s.it != m.length)

/-- Body `std::cout << it->first << ":" << it->second << " ";` of the loop of `Print`,
followed by its increment `++it`. -/
def printBody (m : List (Int × String)) (s : PrintState) : Exec PrintState := do
  let e ← deref m s.it
  pure { it := s.it + 1
         out := s.out ++ [Tok.int e.1, Tok.str ":", Tok.str e.2, Tok.str " "] }

/-- Helper `Print` of 005_main.cpp:
```
std::cout << prefix << std::endl;
for (auto it = m.begin (); it != m.end (); ++it) { ... }
std::cout << std::endl;
```
-/
def Print (fuel : Nat) (pfx : String) (m : List (Int × String)) (out : Stdout) :
    Exec Stdout := do
  let out := out ++ [Tok.str pfx, Tok.endl]
  let s ← whileLoop (printCond m) (printBody m) fuel { it := 0, out := out }
  pure (s.out ++ [Tok.endl])

/-- State of the erase loop: the map and the iterator `it`. -/
structure EraseState where
  m : List (Int × String)
  it : Nat

/-- Condition `it != m.end ()` of the erase loop; end() is taken anew in every test. -/
def eraseCond (s : EraseState) : Exec Bool :=
  pure (s.it != s.m.length)

/-- Body of the erase loop:
```
if (it->first < 4) { it = m.erase (it); }
else { ++it; }
```
-/
def eraseBody (s : EraseState) : Exec EraseState := do
  let e ← deref s.m s.it
  if e.1 < 4 then
    let (m, it) ← Stl.map_erase s.m s.it
    pure { m := m, it := it }
  else
    pure { m := s.m, it := s.it + 1 }

/-- The erase loop `for (auto it = m.begin (); it != m.end ();) { ... }` of main; the map it
leaves is the result. -/
def eraseLoop (fuel : Nat) (m : List (Int × String)) : Exec (List (Int × String)) := do
  let s ← whileLoop eraseCond eraseBody fuel { m := m, it := 0 }
  pure s.m

/-- Number of iterations of the erase loop. -/
def eraseIters (fuel : Nat) (m : List (Int × String)) : Exec Nat :=
  whileIters eraseCond eraseBody fuel { m := m, it := 0 }

/-- The map that main builds: three entries in the initializer list, then insert. -/
def initial : List (Int × String) :=
  Stl.map_insert less (Stl.map_of_list less [(1, "1st"), (2, "2nd"), (3, "3rd")]) (4, "4th")

/-- The function main of 005_main.cpp; the result is the output and the exit code. -/
def main (fuel : Nat) : Exec (Stdout × Int) := do
  let m := initial
  let out ← Print fuel "Init." m []
  let m ← eraseLoop fuel m
  let out ← Print fuel "After erase." m out
  pure (out, EXIT_SUCCESS)

end Main005

/-! ## 006_main.cpp: the erase-remove idiom -/

namespace Main006

/-- Loop state of `Print`: the index `i` and the output. -/
structure PrintState where
  i : Nat
  out : Stdout

/-- Condition `i < v.size ()` of the loop of `Print`. -/
def printCond (v : List Int) (s : PrintState) : Exec Bool :=
  pure (decide (s.i < v.length))

/-- Body `std::cout << v [i];` of the loop of `Print`, followed by its increment `++i`. -/
def printBody (v : List Int) (s : PrintState) : Exec PrintState := do
  let x ← deref v s.i
  pure { i := s.i + 1, out := s.out ++ [Tok.int x] }

/-- Helper `Print` of 006_main.cpp:
```
std::cout << prefix << std::endl;
for (size_t i = 0; i < v.size (); ++i) { std::cout << v [i]; }
std::cout << std::endl;
```
-/
def Print (fuel : Nat) (pfx : String) (v : List Int) (out : Stdout) : Exec Stdout := do
  let out := out ++ [Tok.str pfx, Tok.endl]
  let s ← whileLoop (printCond v) (printBody v) fuel { i := 0, out := out }
  pure (s.out ++ [Tok.endl])

/-- The statement `const auto x = std::remove (v.begin (), v.end (), 4);` on a vector `v`:
the vector as std::remove leaves it, and `x` as an offset from v.begin (). -/
def removeStep (fuel : Nat) (v : List Int) : Exec (List Int × Nat) :=
  Stl.remove fuel v 0 v.length 4

/-- The erase-remove idiom of main on a vector `v`:
```
const auto x = std::remove (v.begin (), v.end (), 4);
v.erase (x, v.end () );
```
without the call of `Print` between the two statements. -/
def eraseRemove (fuel : Nat) (v : List Int) : Exec (List Int) := do
  let (v, x) ← removeStep fuel v
  Stl.vector_erase v x v.length

/-- The function main of 006_main.cpp; the result is the output and the exit code. -/
def main (fuel : Nat) : Exec (Stdout × Int) := do
  let v : List Int := [0, 4, 1, 2]
  let out ← Print fuel "Init." v []
  let (v, x) ← removeStep fuel v
  let out ← Print fuel "After remove." v out
  let v ← Stl.vector_erase v x v.length
  let out ← Print fuel "After erase." v out
  pure (out, EXIT_SUCCESS)

end Main006

/-! ## 007_main.cpp: algorithms -/

namespace Main007

/-- INT_MAX of <climits>. -/
def INT_MAX : Int := 2147483647

/-- LONG_MAX of <climits> (long has 64 bits). -/
def LONG_MAX : Int := 9223372036854775807

/-- LONG_MIN of <climits>. -/
def LONG_MIN : Int := -9223372036854775808

/-- Conversion of a long to int: the value modulo 2^32 in the range of int. -/
def long_to_int (x : Int) : Int := (x + 2147483648) % 4294967296 - 2147483648

/-- The call operator of std::plus<long>, `return __x + __y;`; overflow of long is undefined
behaviour. -/
def plus_long (x y : Int) : Exec Int :=
  if LONG_MIN ≤ x + y ∧ x + y ≤ LONG_MAX then pure (x + y) else Exec.undefinedBehaviour

/-- The operation of `std::accumulate (v.begin (), v.end (), 0, std::plus <long>{})`: the
accumulator is an int (the type of `0`), so the long sum is converted back to int. -/
def accumulate_op (init : Int) (x : Int) : Exec Int := do
  let r ← plus_long init x
  pure (long_to_int r)

/-- The generator ` [](){static int cnt = 0; return ++cnt;}`; the state is `cnt`.  Overflow
of int is undefined behaviour. -/
def counter (cnt : Int) : Exec (Int × Int) :=
  if cnt + 1 ≤ INT_MAX then pure (cnt + 1, cnt + 1) else Exec.undefinedBehaviour

/-- The predicate ` [](const long & v){return !(v % 3);}`; `%` truncates towards zero. -/
def divisible_by_3 (v : Int) : Bool := Int.tmod v 3 == 0

/-- The call operator of std::greater<long>, `return __x > __y;`. -/
def greater (x y : Int) : Bool := decide (x > y)

/-- Loop state of `Print`: the index `i` and the output. -/
structure PrintState where
  i : Nat
  out : Stdout

/-- Condition `i < v.size ()` of the loop of `Print`. -/
def printCond (v : List Int) (s : PrintState) : Exec Bool :=
  pure (decide (s.i < v.length))

/-- Body `std::cout << v [i];` of the loop of `Print`, followed by its increment `++i`. -/
def printBody (v : List Int) (s : PrintState) : Exec PrintState := do
  let x ← deref v s.i
  pure { i := s.i + 1, out := s.out ++ [Tok.int x] }

/-- Helper `Print` of 007_main.cpp:
```
std::cout << prefix << std::endl;
for (size_t i = 0; i < v.size (); ++i) { std::cout << v [i]; }
std::cout << std::endl;
```
-/
def Print (fuel : Nat) (pfx : String) (v : List Int) (out : Stdout) : Exec Stdout := do
  let out := out ++ [Tok.str pfx, Tok.endl]
  let s ← whileLoop (printCond v) (printBody v) fuel { i := 0, out := out }
  pure (s.out ++ [Tok.endl])

/-- The statements of main of 007_main.cpp before `return`: the output and the vector `v`
after them.  `std::vector <long> v (10)` holds ten zeros; `sort` stands for std::sort. -/
def run (sort : (Int → Int → Bool) → List Int → List Int) (fuel : Nat) :
    Exec (Stdout × List Int) := do
  let v : List Int := List.replicate 10 0
  let out ← Print fuel "Init." v []
  let v ← Stl.fill fuel v 0 v.length 1
  let out ← Print fuel "After fill." v out
  let s ← Stl.accumulate fuel v 0 v.length 0 accumulate_op
  let out := out ++ [Tok.str "Sum: ", Tok.int s, Tok.endl]
  let v ← Stl.generate fuel v 0 v.length counter 0
  let out ← Print fuel "After generate." v out
  let (v, r) ← Stl.remove_if fuel v 0 v.length divisible_by_3
  let out ← Print fuel "After remove." v out
  let v ← Stl.vector_erase v r v.length
  let out ← Print fuel "After erase." v out
  let v := sort greater v
  let out ← Print fuel "After sort." v out
  pure (out, v)

/-- The function main of 007_main.cpp; the result is the output and the exit code. -/
def main (sort : (Int → Int → Bool) → List Int → List Int) (fuel : Nat) :
    Exec (Stdout × Int) := do
  let (out, _) ← run sort fuel
  pure (out, EXIT_SUCCESS)

/-- Output of 007_main.cpp up to the call of std::sort. -/
def outputBeforeSort : Stdout :=
  [Tok.str "Init.", Tok.endl,
   Tok.int 0, Tok.int 0, Tok.int 0, Tok.int 0, Tok.int 0,
   Tok.int 0, Tok.int 0, Tok.int 0, Tok.int 0, Tok.int 0, Tok.endl,
   Tok.str "After fill.", Tok.endl,
   Tok.int 1, Tok.int 1, Tok.int 1, Tok.int 1, Tok.int 1,
   Tok.int 1, Tok.int 1, Tok.int 1, Tok.int 1, Tok.int 1, Tok.endl,
   Tok.str "Sum: ", Tok.int 10, Tok.endl,
   Tok.str "After generate.", Tok.endl,
   Tok.int 1, Tok.int 2, Tok.int 3, Tok.int 4, Tok.int 5,
   Tok.int 6, Tok.int 7, Tok.int 8, Tok.int 9, Tok.int 10, Tok.endl,
   Tok.str "After remove.", Tok.endl,
   Tok.int 1, Tok.int 2, Tok.int 4, Tok.int 5, Tok.int 7,
   Tok.int 8, Tok.int 10, Tok.int 8, Tok.int 9, Tok.int 10, Tok.endl,
   Tok.str "After erase.", Tok.endl,
   Tok.int 1, Tok.int 2, Tok.int 4, Tok.int 5, Tok.int 7, Tok.int 8, Tok.int 10, Tok.endl]

/-- A function that meets the contract of std::sort: insertion sort, where an element may
stay before another unless `comp` puts the other first.  (libstdc++ sorts a range of at most
16 elements, as the one of this program, by insertion sort.) -/
def insertion_sort (comp : Int → Int → Bool) (l : List Int) : List Int :=
  l.insertionSort (fun a b => comp b a = false)

end Main007

/-! ## Lemmas on the execution monad and on loops -/

@[simp] theorem Exec.pure_eq {α : Type} (a : α) : (pure a : Exec α) = Exec.ok a := rfl

@[simp] theorem Exec.bind_eq {α β : Type} (x : Exec α) (f : α → Exec β) :
    (x >>= f) = x.bind f := rfl

@[simp] theorem Exec.bind_ok {α β : Type} (a : α) (f : α → Exec β) :
    (Exec.ok a).bind f = f a := rfl

@[simp] theorem Exec.bind_outOfFuel {α β : Type} (f : α → Exec β) :
    (Exec.outOfFuel : Exec α).bind f = Exec.outOfFuel := rfl

@[simp] theorem Exec.bind_undefinedBehaviour {α β : Type} (f : α → Exec β) :
    (Exec.undefinedBehaviour : Exec α).bind f = Exec.undefinedBehaviour := rfl

theorem whileLoop_done {σ : Type} {cond : σ → Exec Bool} {body : σ → Exec σ} {s : σ}
    (h : cond s = Exec.ok false) (fuel : Nat) : whileLoop cond body fuel s = Exec.ok s := by
  cases fuel <;> simp [whileLoop, h]

theorem whileLoop_step {σ : Type} {cond : σ → Exec Bool} {body : σ → Exec σ} {s t : σ}
    (h : cond s = Exec.ok true) (hb : body s = Exec.ok t) (fuel : Nat) :
    whileLoop cond body (fuel + 1) s = whileLoop cond body fuel t := by
  simp [whileLoop, h, hb]

theorem whileLoop_zero {σ : Type} {cond : σ → Exec Bool} {body : σ → Exec σ} {s : σ}
    (h : cond s = Exec.ok true) : whileLoop cond body 0 s = Exec.outOfFuel := by
  simp [whileLoop, h]

theorem whileIters_done {σ : Type} {cond : σ → Exec Bool} {body : σ → Exec σ} {s : σ}
    (h : cond s = Exec.ok false) (fuel : Nat) : whileIters cond body fuel s = Exec.ok 0 := by
  cases fuel <;> simp [whileIters, h]

theorem whileIters_step {σ : Type} {cond : σ → Exec Bool} {body : σ → Exec σ} {s t : σ}
    (h : cond s = Exec.ok true) (hb : body s = Exec.ok t) (fuel : Nat) :
    whileIters cond body (fuel + 1) s
      = (whileIters cond body fuel t).bind fun n => Exec.ok (n + 1) := by
  simp [whileIters, h, hb]

theorem whileIters_zero {σ : Type} {cond : σ → Exec Bool} {body : σ → Exec σ} {s : σ}
    (h : cond s = Exec.ok true) : whileIters cond body 0 s = Exec.outOfFuel := by
  simp [whileIters, h]

theorem deref_eq {α : Type} {v : List α} {i : Nat} (h : i < v.length) :
    deref v i = Exec.ok v[i] := by
  simp [deref, List.getElem?_eq_getElem h]

theorem whileLoop_mono {σ : Type} (cond : σ → Exec Bool) (body : σ → Exec σ) :
    ∀ (fuel : Nat) (s r : σ), whileLoop cond body fuel s = Exec.ok r →
      ∀ k, whileLoop cond body (fuel + k) s = Exec.ok r := by
  intro fuel
  induction fuel with
  | zero =>
    intro s r h k
    cases hc : cond s with
    | ok c =>
      cases c with
      | false =>
        have h0 : Exec.ok s = Exec.ok r := by simpa [whileLoop, hc] using h
        rw [whileLoop_done hc, h0]
      | true => simp [whileLoop, hc] at h
    | outOfFuel => simp [whileLoop, hc] at h
    | undefinedBehaviour => simp [whileLoop, hc] at h
  | succ fuel ih =>
    intro s r h k
    have hk : fuel + 1 + k = (fuel + k) + 1 := by omega
    rw [hk]
    cases hc : cond s with
    | ok c =>
      cases c with
      | false =>
        have h0 : Exec.ok s = Exec.ok r := by simpa [whileLoop, hc] using h
        rw [whileLoop_done hc, h0]
      | true =>
        cases hb : body s with
        | ok s' =>
          rw [whileLoop_step hc hb] at h
          rw [whileLoop_step hc hb]
          exact ih s' r h k
        | outOfFuel => simp [whileLoop, hc, hb] at h
        | undefinedBehaviour => simp [whileLoop, hc, hb] at h
    | outOfFuel => simp [whileLoop, hc] at h
    | undefinedBehaviour => simp [whileLoop, hc] at h

/-- A loop that walks a sequence from a position to its end, one element per iteration,
and appends `emit` of each element to the output, ends at end() with the elements emitted
in order. -/
theorem whileLoop_sweep {σ α : Type} (v : List α) (emit : α → Stdout)
    (cond : σ → Exec Bool) (body : σ → Exec σ) (idx : σ → Nat) (out : σ → Stdout)
    (hc : ∀ s, idx s ≤ v.length → cond s = Exec.ok (idx s != v.length))
    (hb : ∀ s (h : idx s < v.length),
      ∃ s', body s = Exec.ok s' ∧ idx s' = idx s + 1 ∧ out s' = out s ++ emit v[idx s]) :
    ∀ (d : Nat) (s : σ) (fuel : Nat), idx s + d = v.length → d ≤ fuel →
      ∃ r, whileLoop cond body fuel s = Exec.ok r ∧ idx r = v.length ∧
        out r = out s ++ ((v.drop (idx s)).map emit).flatten := by
  intro d
  induction d with
  | zero =>
    intro s fuel h _
    have hs : idx s = v.length := by omega
    refine ⟨s, whileLoop_done ?_ fuel, hs, ?_⟩
    · rw [hc s (by omega)]; simp [hs]
    · simp [hs]
  | succ d ih =>
    intro s fuel h hf
    obtain ⟨fuel, rfl⟩ : ∃ f, fuel = f + 1 := ⟨fuel - 1, by omega⟩
    have hlt : idx s < v.length := by omega
    obtain ⟨s', hbody, hidx, hout⟩ := hb s hlt
    obtain ⟨r, hr, hri, hro⟩ := ih s' fuel (by omega) (by omega)
    refine ⟨r, ?_, hri, ?_⟩
    · rw [whileLoop_step (by rw [hc s (by omega)]; simp; omega) hbody]
      exact hr
    · rw [hro, hout, hidx, List.drop_eq_getElem_cons hlt]
      simp only [List.map_cons, List.flatten_cons, List.append_assoc]

/-- A loop that still has more elements to walk than fuel runs out of fuel. -/
theorem whileLoop_sweep_short {σ α : Type} (v : List α)
    (cond : σ → Exec Bool) (body : σ → Exec σ) (idx : σ → Nat)
    (hc : ∀ s, idx s ≤ v.length → cond s = Exec.ok (idx s != v.length))
    (hb : ∀ s, idx s < v.length → ∃ s', body s = Exec.ok s' ∧ idx s' = idx s + 1) :
    ∀ (fuel : Nat) (s : σ), idx s + fuel < v.length →
      whileLoop cond body fuel s = Exec.outOfFuel := by
  intro fuel
  induction fuel with
  | zero =>
    intro s h
    exact whileLoop_zero (by rw [hc s (by omega)]; simp; omega)
  | succ fuel ih =>
    intro s h
    obtain ⟨s', hbody, hidx⟩ := hb s (by omega)
    rw [whileLoop_step (by rw [hc s (by omega)]; simp; omega) hbody]
    exact ih s' (by omega)

/-- The whole-sequence case of `whileLoop_sweep`, in the form the programs use it. -/
theorem whileLoop_sweep_all {σ α : Type} (v : List α) (emit : α → Stdout)
    (cond : σ → Exec Bool) (body : σ → Exec σ) (idx : σ → Nat) (out : σ → Stdout)
    (hc : ∀ s, idx s ≤ v.length → cond s = Exec.ok (idx s != v.length))
    (hb : ∀ s (h : idx s < v.length),
      ∃ s', body s = Exec.ok s' ∧ idx s' = idx s + 1 ∧ out s' = out s ++ emit v[idx s])
    (s : σ) (fuel : Nat) (h0 : idx s = 0) (hf : v.length ≤ fuel) :
    ∃ r, whileLoop cond body fuel s = Exec.ok r ∧ out r = out s ++ (v.map emit).flatten := by
  obtain ⟨r, hr, _, hro⟩ := whileLoop_sweep v emit cond body idx out hc hb v.length s fuel
    (by omega) hf
  exact ⟨r, hr, by simpa [h0] using hro⟩

theorem deref_append_cons {α : Type} (pre : List α) (x : α) (post : List α) :
    deref (pre ++ x :: post) pre.length = Exec.ok x := by
  rw [deref_eq (by simp)]
  simp [List.getElem_append_right]

theorem eraseIdx_append_cons {α : Type} (pre : List α) (x : α) (post : List α) :
    (pre ++ x :: post).eraseIdx pre.length = pre ++ post := by
  induction pre with
  | nil => rfl
  | cons a pre ih => simp [List.eraseIdx, ih]

theorem decide_lt_eq_bne {i n : Nat} (h : i ≤ n) : decide (i < n) = (i != n) := by
  by_cases hi : i = n
  · simp [hi]
  · have : i < n := by omega
    simp [this, hi]

theorem flatten_map_singleton {α β : Type} (f : α → β) (l : List α) :
    (l.map (fun x => [f x])).flatten = l.map f := by
  induction l with
  | nil => rfl
  | cons a l ih => simp [ih]

/-! ## std::find_if and std::remove_if: proofs -/

namespace Stl

theorem find_if_loop {α : Type} (v : List α) (pred : α → Bool) :
    ∀ (d first fuel : Nat), first + d = v.length → d ≤ fuel →
      whileLoop (findIfCond v v.length pred) findIfBody fuel first
        = Exec.ok (first + ((v.drop first).takeWhile (fun x => !pred x)).length) := by
  intro d
  induction d with
  | zero =>
    intro first fuel h _
    have hf : first = v.length := by omega
    subst hf
    rw [whileLoop_done (by simp [findIfCond])]
    simp
  | succ d ih =>
    intro first fuel h hf
    obtain ⟨fuel, rfl⟩ : ∃ f, fuel = f + 1 := ⟨fuel - 1, by omega⟩
    have hlt : first < v.length := by omega
    have hne : first ≠ v.length := by omega
    by_cases hp : pred v[first] = true
    · have hT : (v.drop first).takeWhile (fun x => !pred x) = [] := by
        rw [List.drop_eq_getElem_cons hlt, List.takeWhile_cons]
        simp [hp]
      rw [whileLoop_done (by simp [findIfCond, hne, deref_eq hlt, hp]), hT]
      simp
    · have hT : (v.drop first).takeWhile (fun x => !pred x)
          = v[first] :: (v.drop (first + 1)).takeWhile (fun x => !pred x) := by
        rw [List.drop_eq_getElem_cons hlt, List.takeWhile_cons]
        simp [hp]
      rw [whileLoop_step (t := first + 1)
        (by simp [findIfCond, hne, deref_eq hlt, hp]) (by simp [findIfBody]),
        ih (first + 1) fuel (by omega) (by omega), hT]
      simp only [List.length_cons]
      congr 1
      omega

theorem find_if_eq {α : Type} (v : List α) (pred : α → Bool) (fuel : Nat)
    (h : v.length ≤ fuel) :
    find_if fuel v 0 v.length pred
      = Exec.ok (v.takeWhile (fun x => !pred x)).length := by
  have := find_if_loop v pred v.length 0 fuel (by omega) h
  simpa [find_if] using this

theorem deref_kept {α : Type} (v kept : List α) (first : Nat) (hk : kept.length ≤ first)
    (hlt : first < v.length) :
    deref (kept ++ v.drop kept.length) first = Exec.ok v[first] := by
  have hlen : first < (kept ++ v.drop kept.length).length := by
    simp only [List.length_append, List.length_drop]; omega
  rw [deref_eq hlen, List.getElem_append_right hk, List.getElem_drop]
  congr 2
  omega

theorem assign_kept {α : Type} (v kept : List α) (x : α) (hk : kept.length < v.length) :
    assign (kept ++ v.drop kept.length) kept.length x
      = Exec.ok ((kept ++ [x]) ++ v.drop (kept ++ [x]).length) := by
  have hlen : kept.length < (kept ++ v.drop kept.length).length := by
    simp only [List.length_append, List.length_drop]; omega
  rw [assign, if_pos hlen, List.set_append_right _ _ (Nat.le_refl _), Nat.sub_self,
    List.drop_eq_getElem_cons hk, List.set_cons_zero]
  simp

theorem remove_if_loop {α : Type} (v : List α) (pred : α → Bool) :
    ∀ (d first : Nat) (kept : List α) (fuel : Nat), first + d = v.length →
      kept.length ≤ first → d ≤ fuel →
      whileLoop (removeIfCond v.length) (removeIfBody pred) fuel
          { v := kept ++ v.drop kept.length, first := first, result := kept.length }
        = Exec.ok
          { v := (kept ++ (v.drop first).filter (fun x => !pred x))
                  ++ v.drop (kept ++ (v.drop first).filter (fun x => !pred x)).length
            first := v.length
            result := (kept ++ (v.drop first).filter (fun x => !pred x)).length } := by
  intro d
  induction d with
  | zero =>
    intro first kept fuel h _ _
    have hf : first = v.length := by omega
    subst hf
    rw [whileLoop_done (by simp [removeIfCond])]
    simp
  | succ d ih =>
    intro first kept fuel h hk hf
    obtain ⟨fuel, rfl⟩ : ∃ f, fuel = f + 1 := ⟨fuel - 1, by omega⟩
    have hlt : first < v.length := by omega
    have hne : first ≠ v.length := by omega
    by_cases hp : pred v[first] = true
    · have hF : (v.drop first).filter (fun x => !pred x)
          = (v.drop (first + 1)).filter (fun x => !pred x) := by
        rw [List.drop_eq_getElem_cons hlt, List.filter_cons]
        simp [hp]
      rw [whileLoop_step
        (t := { v := kept ++ v.drop kept.length, first := first + 1, result := kept.length })
        (by simp [removeIfCond, hne])
        (by simp [removeIfBody, deref_kept v kept first hk hlt, hp]),
        ih (first + 1) kept fuel (by omega) (by omega) (by omega), hF]
    · have hb : removeIfBody pred
          { v := kept ++ v.drop kept.length, first := first, result := kept.length }
          = Exec.ok { v := (kept ++ [v[first]]) ++ v.drop (kept ++ [v[first]]).length
                      first := first + 1, result := (kept ++ [v[first]]).length } := by
        simp [removeIfBody, deref_kept v kept first hk hlt, hp,
          assign_kept v kept v[first] (by omega)]
      have hF : (v.drop first).filter (fun x => !pred x)
          = v[first] :: (v.drop (first + 1)).filter (fun x => !pred x) := by
        rw [List.drop_eq_getElem_cons hlt, List.filter_cons]
        simp [hp]
      rw [whileLoop_step (by simp [removeIfCond, hne]) hb,
        ih (first + 1) (kept ++ [v[first]]) fuel (by omega) (by simp; omega) (by omega), hF]
      simp only [List.append_assoc, List.singleton_append]

theorem filter_eq_takeWhile_append {α : Type} (q : α → Bool) (v : List α) (x : α)
    (rest : List α) (h : v.dropWhile q = x :: rest) :
    v.filter q = v.takeWhile q ++ rest.filter q := by
  induction v with
  | nil => simp at h
  | cons a v ih =>
    by_cases ha : q a = true
    · simp only [List.dropWhile_cons, ha, if_true] at h
      simp [List.filter_cons, List.takeWhile_cons, ha, ih h]
    · simp only [List.dropWhile_cons, ha] at h
      simp at h
      obtain ⟨rfl, rfl⟩ := h
      simp [List.filter_cons, List.takeWhile_cons, ha]

theorem drop_takeWhile_length {α : Type} (q : α → Bool) (v : List α) :
    v.drop (v.takeWhile q).length = v.dropWhile q := by
  induction v with
  | nil => rfl
  | cons a v ih =>
    by_cases ha : q a = true <;> simp [List.takeWhile_cons, List.dropWhile_cons, ha, ih]

/-- The effect of std::remove_if on a whole sequence: the elements that do not satisfy the
predicate come first, in their order; the rest of the sequence keeps its old contents; the
iterator returned is the end of the first part. -/
theorem remove_if_eq {α : Type} (v : List α) (pred : α → Bool) (fuel : Nat)
    (h : v.length ≤ fuel) :
    remove_if fuel v 0 v.length pred
      = Exec.ok (v.filter (fun x => !pred x) ++ v.drop (v.filter (fun x => !pred x)).length,
          (v.filter (fun x => !pred x)).length) := by
  rw [remove_if]
  simp only [Exec.bind_eq, Exec.pure_eq, find_if_eq v pred fuel h, Exec.bind_ok]
  cases hd : v.dropWhile (fun x => !pred x) with
  | nil =>
    have hall : ∀ x ∈ v, (!pred x) = true := List.dropWhile_eq_nil_iff.mp hd
    have htw : v.takeWhile (fun x => !pred x) = v := by
      have := List.takeWhile_append_dropWhile (fun x => !pred x) v
      rw [hd, List.append_nil] at this
      exact this
    have hfl : v.filter (fun x => !pred x) = v := List.filter_eq_self.mpr hall
    simp [htw, hfl]
  | cons x rest =>
    have hdrop := drop_takeWhile_length (fun x => !pred x) v
    have hsplit := List.takeWhile_append_dropWhile (fun x => !pred x) v
    rw [hd] at hdrop hsplit
    have hlen : (v.takeWhile (fun x => !pred x)).length < v.length := by
      have := congrArg List.length hsplit
      simp at this
      omega
    have hne : ((v.takeWhile (fun x => !pred x)).length == v.length) = false := by
      simp; omega
    have hloop := remove_if_loop v pred (v.length - ((v.takeWhile (fun x => !pred x)).length + 1))
      ((v.takeWhile (fun x => !pred x)).length + 1) (v.takeWhile (fun x => !pred x)) fuel
      (by omega) (by omega) (by omega)
    rw [hdrop, hsplit] at hloop
    have hrest : v.drop ((v.takeWhile (fun x => !pred x)).length + 1) = rest := by
      rw [← List.drop_drop, hdrop]
      rfl
    rw [hrest, ← filter_eq_takeWhile_append _ v x rest hd] at hloop
    simp [hne, hloop]

end Stl

/-! ## 001_main.cpp: proofs -/

namespace Main001

theorem loop1_eq (v : List Int) (out : Stdout) (fuel : Nat) (h : v.length ≤ fuel) :
    loop1 fuel v out = Exec.ok (out ++ v.map Tok.int) := by
  obtain ⟨r, hr, hro⟩ := whileLoop_sweep_all v (fun x => [Tok.int x])
    (fun s : LoopState => pure (decide (s.i < v.length)))
    (fun s => do
      let x ← deref v s.i
      pure { i := s.i + 1, out := s.out ++ [Tok.int x] })
    LoopState.i LoopState.out
    (by intro s hs; simp [decide_lt_eq_bne hs])
    (by intro s h
        exact ⟨{ i := s.i + 1, out := s.out ++ [Tok.int v[s.i]] },
          by simp [deref_eq h], rfl, rfl⟩)
    { i := 0, out := out } fuel rfl h
  simp only [Exec.pure_eq, Exec.bind_eq] at hr
  simp [loop1, hr, hro, flatten_map_singleton]

theorem rangeFor_eq (v : List Int) (out : Stdout) (fuel : Nat) (h : v.length ≤ fuel) :
    rangeFor fuel v out = Exec.ok (out ++ v.map Tok.int) := by
  obtain ⟨r, hr, hro⟩ := whileLoop_sweep_all v (fun x => [Tok.int x])
    (fun s : LoopState => pure (s.i != v.length))
    (fun s => do
      let i ← deref v s.i
      pure { i := s.i + 1, out := s.out ++ [Tok.int i] })
    LoopState.i LoopState.out
    (by intro s _; simp)
    (by intro s h
        exact ⟨{ i := s.i + 1, out := s.out ++ [Tok.int v[s.i]] },
          by simp [deref_eq h], rfl, rfl⟩)
    { i := 0, out := out } fuel rfl h
  simp only [Exec.pure_eq, Exec.bind_eq] at hr
  simp [rangeFor, hr, hro, flatten_map_singleton]

theorem loop4_eq (v : List Int) (out : Stdout) (fuel : Nat) (h : v.length ≤ fuel) :
    loop4 fuel v out = Exec.ok (out ++ v.map Tok.int) := by
  obtain ⟨r, hr, hro⟩ := whileLoop_sweep_all v (fun x => [Tok.int x])
    (fun s : LoopState => pure (decide (s.i < v.length)))
    (fun s => do
      let x ← deref v s.i
      pure { i := s.i + 1, out := s.out ++ [Tok.int x] })
    LoopState.i LoopState.out
    (by intro s hs; simp [decide_lt_eq_bne hs])
    (by intro s h
        exact ⟨{ i := s.i + 1, out := s.out ++ [Tok.int v[s.i]] },
          by simp [deref_eq h], rfl, rfl⟩)
    { i := 0, out := out } fuel rfl h
  simp only [Exec.pure_eq, Exec.bind_eq] at hr
  simp [loop4, hr, hro, flatten_map_singleton]

theorem loop5_eq (v : List Int) (out : Stdout) (fuel : Nat) (h : v.length ≤ fuel) :
    loop5 fuel v out = Exec.ok (out ++ v.map Tok.int) := by
  obtain ⟨r, hr, hro⟩ := whileLoop_sweep_all v (fun x => [Tok.int x])
    (fun s : LoopState => pure (s.i != v.length))
    (fun s => do
      let x ← deref v s.i
      pure { i := s.i + 1, out := s.out ++ [Tok.int x] })
    LoopState.i LoopState.out
    (by intro s _; simp)
    (by intro s h
        exact ⟨{ i := s.i + 1, out := s.out ++ [Tok.int v[s.i]] },
          by simp [deref_eq h], rfl, rfl⟩)
    { i := 0, out := out } fuel rfl h
  simp only [Exec.pure_eq, Exec.bind_eq] at hr
  simp [loop5, hr, hro, flatten_map_singleton]

theorem loop6_eq (v : List Int) (out : Stdout) (fuel : Nat) (h : v.length ≤ fuel) :
    loop6 fuel v out = Exec.ok (out ++ v.map Tok.int) := by
  obtain ⟨r, hr, hro⟩ := whileLoop_sweep_all v (fun x => [Tok.int x])
    (fun s : LoopState => pure (decide (s.i < v.length)))
    (fun s => do
      let x ← deref v (0 + s.i)
      pure { i := s.i + 1, out := s.out ++ [Tok.int x] })
    LoopState.i LoopState.out
    (by intro s hs; simp [decide_lt_eq_bne hs])
    (by intro s h
        exact ⟨{ i := s.i + 1, out := s.out ++ [Tok.int v[s.i]] },
          by simp [deref_eq h], rfl, rfl⟩)
    { i := 0, out := out } fuel rfl h
  simp only [Exec.pure_eq, Exec.bind_eq, Nat.zero_add] at hr
  simp [loop6, hr, hro, flatten_map_singleton]

theorem main_eq_001 (fuel : Nat) (h : 4 ≤ fuel) :
    main fuel = Exec.ok (
      [Tok.str "1: ", Tok.int 0, Tok.int 4, Tok.int 1, Tok.int 2, Tok.endl,
       Tok.str "2: ", Tok.int 0, Tok.int 4, Tok.int 1, Tok.int 2, Tok.endl,
       Tok.str "3: ", Tok.int 0, Tok.int 4, Tok.int 1, Tok.int 2, Tok.endl,
       Tok.str "4: ", Tok.int 0, Tok.int 4, Tok.int 1, Tok.int 2, Tok.endl,
       Tok.str "5: ", Tok.int 0, Tok.int 4, Tok.int 1, Tok.int 2, Tok.endl,
       Tok.str "6: ", Tok.int 0, Tok.int 4, Tok.int 1, Tok.int 2, Tok.endl], EXIT_SUCCESS) := by
  have hl : initial.length ≤ fuel := by simpa [initial, Stl.push_back] using h
  simp only [main, Exec.bind_eq, Exec.pure_eq, loop2, loop3, loop1_eq _ _ _ hl,
    rangeFor_eq _ _ _ hl, loop4_eq _ _ _ hl, loop5_eq _ _ _ hl, loop6_eq _ _ _ hl, Exec.bind_ok]
  rfl

end Main001

/-! ## 003_main.cpp: proofs -/

namespace Main003

theorem Print_eq_003 (l : List Int) (pfx : String) (out : Stdout) (fuel : Nat)
    (h : l.length ≤ fuel) :
    Print fuel pfx l out
      = Exec.ok (out ++ [Tok.str pfx, Tok.endl] ++ l.map Tok.int ++ [Tok.endl]) := by
  obtain ⟨r, hr, hro⟩ := whileLoop_sweep_all l (fun x => [Tok.int x]) (printCond l)
    (printBody l) PrintState.it PrintState.out
    (by intro s _; simp [printCond])
    (by intro s h
        exact ⟨{ it := s.it + 1, out := s.out ++ [Tok.int l[s.it]] },
          by simp [printBody, deref_eq h], rfl, rfl⟩)
    { it := 0, out := out ++ [Tok.str pfx, Tok.endl] } fuel rfl h
  simp [Print, hr, hro, flatten_map_singleton]

theorem remove_loop (value : Int) :
    ∀ (post pre : List Int) (fuel : Nat), post.length ≤ fuel →
      whileLoop Stl.listRemoveCond (Stl.listRemoveBody value) fuel { l := pre ++ post, first := pre.length }
        = Exec.ok { l := pre ++ post.filter (fun y => y != value),
                    first := (pre ++ post.filter (fun y => y != value)).length } := by
  intro post
  induction post with
  | nil =>
    intro pre fuel _
    rw [whileLoop_done (by simp [Stl.listRemoveCond])]
    simp
  | cons x post ih =>
    intro pre fuel hf
    obtain ⟨fuel, rfl⟩ : ∃ f, fuel = f + 1 := ⟨fuel - 1, by simp at hf; omega⟩
    have hf' : post.length ≤ fuel := by simpa using hf
    by_cases hx : x = value
    · rw [whileLoop_step (t := { l := pre ++ post, first := pre.length })
        (by simp [Stl.listRemoveCond])
        (by simp [Stl.listRemoveBody, deref_append_cons, eraseIdx_append_cons, hx])]
      rw [ih pre fuel hf']
      simp [hx]
    · rw [whileLoop_step (t := { l := (pre ++ [x]) ++ post, first := (pre ++ [x]).length })
        (by simp [Stl.listRemoveCond])
        (by simp [Stl.listRemoveBody, deref_append_cons, hx])]
      rw [ih (pre ++ [x]) fuel hf']
      simp [hx]

theorem list_remove_eq (l : List Int) (value : Int) (fuel : Nat) (h : l.length ≤ fuel) :
    Stl.list_remove fuel l value = Exec.ok (l.filter (fun y => y != value)) := by
  have := remove_loop value l [] fuel h
  simp at this
  simp [Stl.list_remove, this]

theorem main_eq_003 (fuel : Nat) (h : 4 ≤ fuel) :
    main fuel = Exec.ok (
      [Tok.str "Init.", Tok.endl, Tok.int 0, Tok.int 4, Tok.int 1, Tok.int 2, Tok.endl,
       Tok.str "After remove.", Tok.endl, Tok.int 0, Tok.int 1, Tok.int 2, Tok.endl],
      EXIT_SUCCESS) := by
  have h1 : ([0, 4, 1, 2] : List Int).length ≤ fuel := by simpa using h
  have h2 : ([0, 1, 2] : List Int).length ≤ fuel := by simp; omega
  have hfilter : ([0, 4, 1, 2] : List Int).filter (fun y => y != 4) = [0, 1, 2] := by decide
  simp only [main, Exec.bind_eq, Exec.pure_eq, Print_eq_003 _ _ _ _ h1, Exec.bind_ok,
    list_remove_eq _ _ _ h1, hfilter, Print_eq_003 _ _ _ _ h2]
  rfl

end Main003

/-! ## 004_main.cpp: proofs -/

namespace Main004

theorem S_compare_succ (n1 n2 : Nat) : S_compare (n1 + 1) (n2 + 1) = S_compare n1 n2 := by
  simp [S_compare]

theorem S_compare_zero_succ (n : Nat) : S_compare 0 (n + 1) < 0 := by
  simp only [S_compare, INT_MAX, INT_MIN]
  split_ifs <;> omega

theorem S_compare_succ_zero (n : Nat) : 0 < S_compare (n + 1) 0 := by
  simp only [S_compare, INT_MAX, INT_MIN]
  split_ifs <;> omega

theorem string_compare_nil_nil : string_compare [] [] = 0 := by
  decide

theorem string_compare_nil_cons (b : Fin 256) (s2 : CppString) :
    string_compare [] (b :: s2) < 0 := by
  simpa [string_compare, traits_compare] using S_compare_zero_succ s2.length

theorem string_compare_cons_nil (a : Fin 256) (s1 : CppString) :
    0 < string_compare (a :: s1) [] := by
  simpa [string_compare, traits_compare] using S_compare_succ_zero s1.length

theorem string_compare_cons_cons (a b : Fin 256) (s1 s2 : CppString) :
    string_compare (a :: s1) (b :: s2)
      = if a < b then -1 else if b < a then 1 else string_compare s1 s2 := by
  simp only [string_compare, List.length_cons, Nat.succ_min_succ, traits_compare,
    S_compare_succ]
  split_ifs <;> simp_all

theorem string_compare_eq_zero_iff :
    ∀ (s1 s2 : CppString), string_compare s1 s2 = 0 ↔ s1 = s2 := by
  intro s1
  induction s1 with
  | nil =>
    intro s2
    cases s2 with
    | nil => simp [string_compare_nil_nil]
    | cons b s2 =>
      have := string_compare_nil_cons b s2
      constructor
      · intro h; omega
      · intro h; simp at h
  | cons a s1 ih =>
    intro s2
    cases s2 with
    | nil =>
      have := string_compare_cons_nil a s1
      constructor
      · intro h; omega
      · intro h; simp at h
    | cons b s2 =>
      rw [string_compare_cons_cons]
      rcases lt_trichotomy a b with hab | hab | hab
      · have hne : a ≠ b := ne_of_lt hab
        simp [hab, hne]
      · subst hab
        simp [ih s2]
      · have hne : a ≠ b := ne_of_gt hab
        have hnot : ¬ a < b := not_lt_of_gt hab
        simp [hab, hnot, hne]

theorem string_compare_swap :
    ∀ (s1 s2 : CppString), string_compare s1 s2 < 0 ↔ 0 < string_compare s2 s1 := by
  intro s1
  induction s1 with
  | nil =>
    intro s2
    cases s2 with
    | nil => simp [string_compare_nil_nil]
    | cons b s2 =>
      have h1 := string_compare_nil_cons b s2
      have h2 := string_compare_cons_nil b s2
      constructor <;> intro _ <;> assumption
  | cons a s1 ih =>
    intro s2
    cases s2 with
    | nil =>
      have h1 := string_compare_nil_cons a s1
      have h2 := string_compare_cons_nil a s1
      constructor <;> intro _ <;> omega
    | cons b s2 =>
      rw [string_compare_cons_cons, string_compare_cons_cons]
      rcases lt_trichotomy a b with hab | hab | hab
      · have hnot : ¬ b < a := not_lt_of_gt hab
        simp [hab, hnot]
      · subst hab
        simp [ih s2]
      · have hnot : ¬ a < b := not_lt_of_gt hab
        simp [hab, hnot]

theorem string_compare_trans :
    ∀ (s1 s2 s3 : CppString), string_compare s1 s2 < 0 → string_compare s2 s3 < 0 →
      string_compare s1 s3 < 0 := by
  intro s1
  induction s1 with
  | nil =>
    intro s2 s3 h12 h23
    cases s3 with
    | nil =>
      cases s2 with
      | nil => simp [string_compare_nil_nil] at h12
      | cons b s2 =>
        have := string_compare_cons_nil b s2
        omega
    | cons c s3 => exact string_compare_nil_cons c s3
  | cons a s1 ih =>
    intro s2 s3 h12 h23
    cases s2 with
    | nil =>
      have := string_compare_cons_nil a s1
      omega
    | cons b s2 =>
      cases s3 with
      | nil =>
        have := string_compare_cons_nil b s2
        omega
      | cons c s3 =>
        rw [string_compare_cons_cons] at h12 h23 ⊢
        rcases lt_trichotomy a b with hab | hab | hab
        · rcases lt_trichotomy b c with hbc | hbc | hbc
          · simp [lt_trans hab hbc]
          · subst hbc
            simp [hab]
          · have hnot : ¬ b < c := not_lt_of_gt hbc
            simp [hnot, hbc] at h23
        · subst hab
          rcases lt_trichotomy a c with hac | hac | hac
          · simp [hac]
          · subst hac
            simp only [lt_irrefl, if_false] at h12 h23 ⊢
            exact ih s2 s3 h12 h23
          · have hnot : ¬ a < c := not_lt_of_gt hac
            simp [hnot, hac] at h23
        · have hnot : ¬ a < b := not_lt_of_gt hab
          simp [hnot, hab] at h12

theorem traits_compare_eq_zero_iff :
    ∀ (s1 s2 : CppString), s1.length = s2.length →
      (traits_compare s1 s2 s1.length = 0 ↔ s1 = s2) := by
  intro s1
  induction s1 with
  | nil =>
    intro s2 h
    cases s2 with
    | nil => simp [traits_compare]
    | cons b s2 => simp at h
  | cons a s1 ih =>
    intro s2 h
    cases s2 with
    | nil => simp at h
    | cons b s2 =>
      have hl : s1.length = s2.length := by simpa using h
      simp only [List.length_cons, traits_compare]
      rcases lt_trichotomy a b with hab | hab | hab
      · have hne : a ≠ b := ne_of_lt hab
        simp [hab, hne]
      · subst hab
        simp [ih s2 hl]
      · have hne : a ≠ b := ne_of_gt hab
        have hnot : ¬ a < b := not_lt_of_gt hab
        simp [hab, hnot, hne]

theorem string_eq_iff (s1 s2 : CppString) : string_eq s1 s2 = true ↔ s1 = s2 := by
  simp only [string_eq, Bool.and_eq_true, beq_iff_eq]
  constructor
  · rintro ⟨hl, h⟩
    exact (traits_compare_eq_zero_iff s1 s2 hl).mp h
  · rintro rfl
    exact ⟨rfl, (traits_compare_eq_zero_iff s1 s1 rfl).mpr rfl⟩

theorem string_lt_iff (s1 s2 : CppString) :
    string_lt s1 s2 = true ↔ string_compare s1 s2 < 0 := by
  simp [string_lt]

/-- The operator < on Id is the lexicographic order on (prefix, number). -/
theorem Id.lt_iff (a b : Id) :
    Id.lt a b = true ↔
      string_lt a.pfx b.pfx = true ∨ (a.pfx = b.pfx ∧ a.number < b.number) := by
  unfold Id.lt
  by_cases h : string_eq a.pfx b.pfx = true
  · have he : a.pfx = b.pfx := (string_eq_iff _ _).mp h
    have hc : ¬ string_compare a.pfx b.pfx < 0 := by
      rw [(string_compare_eq_zero_iff _ _).mpr he]; omega
    have hl : string_lt a.pfx b.pfx = false := by
      simpa [string_lt] using hc
    rw [if_pos h, hl]
    simp [he]
  · have he : a.pfx ≠ b.pfx := fun he => h ((string_eq_iff _ _).mpr he)
    simp [h, he]

theorem Id.lt_irrefl (a : Id) : Id.lt a a = false := by
  have h := Id.lt_iff a a
  have hc : ¬ string_compare a.pfx a.pfx < 0 := by
    rw [(string_compare_eq_zero_iff _ _).mpr rfl]; omega
  cases hl : Id.lt a a with
  | false => rfl
  | true =>
    rcases h.mp hl with h1 | ⟨_, h2⟩
    · exact absurd ((string_lt_iff _ _).mp h1) hc
    · omega

theorem Id.lt_trans (a b c : Id) (hab : Id.lt a b = true) (hbc : Id.lt b c = true) :
    Id.lt a c = true := by
  rw [Id.lt_iff] at hab hbc ⊢
  rcases hab with h1 | ⟨e1, n1⟩ <;> rcases hbc with h2 | ⟨e2, n2⟩
  · left
    rw [string_lt_iff] at h1 h2 ⊢
    exact string_compare_trans _ _ _ h1 h2
  · left; rw [← e2]; exact h1
  · left; rw [e1]; exact h2
  · right; exact ⟨e1.trans e2, by omega⟩

theorem Id.lt_asymm (a b : Id) (hab : Id.lt a b = true) : Id.lt b a = false := by
  cases hba : Id.lt b a with
  | false => rfl
  | true =>
    have := Id.lt_trans a b a hab hba
    rw [Id.lt_irrefl] at this
    exact absurd this (by simp)

theorem Id.incomparable_iff (a b : Id) :
    (Id.lt a b = false ∧ Id.lt b a = false) ↔ (a.pfx = b.pfx ∧ a.number = b.number) := by
  constructor
  · rintro ⟨h1, h2⟩
    have n1 : ¬ Id.lt a b = true := by simp [h1]
    have n2 : ¬ Id.lt b a = true := by simp [h2]
    rw [Id.lt_iff] at n1 n2
    push_neg at n1 n2
    have hc1 : ¬ string_compare a.pfx b.pfx < 0 := fun h => n1.1 ((string_lt_iff _ _).mpr h)
    have hc2 : ¬ string_compare b.pfx a.pfx < 0 := fun h => n2.1 ((string_lt_iff _ _).mpr h)
    have hc3 : ¬ 0 < string_compare a.pfx b.pfx :=
      fun h => hc2 ((string_compare_swap _ _).mpr h)
    have he : a.pfx = b.pfx := (string_compare_eq_zero_iff _ _).mp (by omega)
    have := n1.2 he
    have := n2.2 he.symm
    exact ⟨he, by omega⟩
  · rintro ⟨he, hn⟩
    have hab : a = b := by
      cases a; cases b; simp_all
    subst hab
    exact ⟨Id.lt_irrefl a, Id.lt_irrefl a⟩

end Main004

/-! ## 005_main.cpp: proofs -/

namespace Main005

theorem Print_eq_005 (m : List (Int × String)) (pfx : String) (out : Stdout) (fuel : Nat)
    (h : m.length ≤ fuel) :
    Print fuel pfx m out
      = Exec.ok (out ++ [Tok.str pfx, Tok.endl]
          ++ (m.map fun e => [Tok.int e.1, Tok.str ":", Tok.str e.2, Tok.str " "]).flatten
          ++ [Tok.endl]) := by
  obtain ⟨r, hr, hro⟩ := whileLoop_sweep_all m
    (fun e => [Tok.int e.1, Tok.str ":", Tok.str e.2, Tok.str " "]) (printCond m)
    (printBody m) PrintState.it PrintState.out
    (by intro s _; simp [printCond])
    (by intro s h
        exact ⟨{ it := s.it + 1
                 out := s.out ++ [Tok.int m[s.it].1, Tok.str ":", Tok.str m[s.it].2, Tok.str " "] },
          by simp [printBody, deref_eq h], rfl, rfl⟩)
    { it := 0, out := out ++ [Tok.str pfx, Tok.endl] } fuel rfl h
  simp [Print, hr, hro]

theorem eraseBody_erase (pre post : List (Int × String)) (e : Int × String) (h : e.1 < 4) :
    eraseBody { m := pre ++ e :: post, it := pre.length }
      = Exec.ok { m := pre ++ post, it := pre.length } := by
  simp [eraseBody, deref_append_cons, Stl.map_erase, eraseIdx_append_cons, h]

theorem eraseBody_keep (pre post : List (Int × String)) (e : Int × String) (h : ¬ e.1 < 4) :
    eraseBody { m := pre ++ e :: post, it := pre.length }
      = Exec.ok { m := (pre ++ [e]) ++ post, it := (pre ++ [e]).length } := by
  simp [eraseBody, deref_append_cons, h]

theorem eraseCond_cons (pre post : List (Int × String)) (e : Int × String) :
    eraseCond { m := pre ++ e :: post, it := pre.length } = Exec.ok true := by
  simp [eraseCond]

theorem eraseCond_nil (pre : List (Int × String)) :
    eraseCond { m := pre ++ [], it := pre.length } = Exec.ok false := by
  simp [eraseCond]

theorem erase_loop :
    ∀ (post pre : List (Int × String)) (fuel : Nat),
      whileLoop eraseCond eraseBody fuel { m := pre ++ post, it := pre.length }
        = if post.length ≤ fuel then
            Exec.ok { m := pre ++ post.filter (fun e => decide (4 ≤ e.1)),
                      it := (pre ++ post.filter (fun e => decide (4 ≤ e.1))).length }
          else Exec.outOfFuel := by
  intro post
  induction post with
  | nil =>
    intro pre fuel
    rw [whileLoop_done (eraseCond_nil pre)]
    simp
  | cons e post ih =>
    intro pre fuel
    cases fuel with
    | zero => rw [whileLoop_zero (eraseCond_cons pre post e)]; simp
    | succ fuel =>
      by_cases he : e.1 < 4
      · rw [whileLoop_step (eraseCond_cons pre post e) (eraseBody_erase pre post e he), ih pre fuel]
        have : ¬ 4 ≤ e.1 := by omega
        simp [this]
      · rw [whileLoop_step (eraseCond_cons pre post e) (eraseBody_keep pre post e he),
          ih (pre ++ [e]) fuel]
        have : 4 ≤ e.1 := by omega
        simp [this]

theorem erase_iters :
    ∀ (post pre : List (Int × String)) (fuel : Nat),
      whileIters eraseCond eraseBody fuel { m := pre ++ post, it := pre.length }
        = if post.length ≤ fuel then Exec.ok post.length else Exec.outOfFuel := by
  intro post
  induction post with
  | nil =>
    intro pre fuel
    rw [whileIters_done (eraseCond_nil pre)]
    simp
  | cons e post ih =>
    intro pre fuel
    cases fuel with
    | zero => rw [whileIters_zero (eraseCond_cons pre post e)]; simp
    | succ fuel =>
      by_cases he : e.1 < 4
      · rw [whileIters_step (eraseCond_cons pre post e) (eraseBody_erase pre post e he), ih pre fuel]
        by_cases hf : post.length ≤ fuel <;> simp [hf]
      · rw [whileIters_step (eraseCond_cons pre post e) (eraseBody_keep pre post e he),
          ih (pre ++ [e]) fuel]
        by_cases hf : post.length ≤ fuel <;> simp [hf]

theorem eraseLoop_eq (m : List (Int × String)) (fuel : Nat) :
    eraseLoop fuel m
      = if m.length ≤ fuel then Exec.ok (m.filter (fun e => decide (4 ≤ e.1)))
        else Exec.outOfFuel := by
  have h := erase_loop m [] fuel
  simp only [List.nil_append, List.length_nil] at h
  rw [eraseLoop]
  simp only [Exec.bind_eq, Exec.pure_eq, h]
  by_cases hf : m.length ≤ fuel <;> simp [hf]

theorem eraseIters_eq (m : List (Int × String)) (fuel : Nat) :
    eraseIters fuel m = if m.length ≤ fuel then Exec.ok m.length else Exec.outOfFuel := by
  have h := erase_iters m [] fuel
  simpa [eraseIters] using h

theorem initial_eq_005 : initial = [(1, "1st"), (2, "2nd"), (3, "3rd"), (4, "4th")] := by
  decide

theorem main_eq_005 (fuel : Nat) (h : 4 ≤ fuel) :
    main fuel = Exec.ok (
      [Tok.str "Init.", Tok.endl,
       Tok.int 1, Tok.str ":", Tok.str "1st", Tok.str " ",
       Tok.int 2, Tok.str ":", Tok.str "2nd", Tok.str " ",
       Tok.int 3, Tok.str ":", Tok.str "3rd", Tok.str " ",
       Tok.int 4, Tok.str ":", Tok.str "4th", Tok.str " ", Tok.endl,
       Tok.str "After erase.", Tok.endl,
       Tok.int 4, Tok.str ":", Tok.str "4th", Tok.str " ", Tok.endl], EXIT_SUCCESS) := by
  have h1 : ([(1, "1st"), (2, "2nd"), (3, "3rd"), (4, "4th")] : List (Int × String)).length
      ≤ fuel := by simpa using h
  have h2 : ([(4, "4th")] : List (Int × String)).length ≤ fuel := by simp; omega
  have hfilter : ([(1, "1st"), (2, "2nd"), (3, "3rd"), (4, "4th")] : List (Int × String)).filter
      (fun e => decide (4 ≤ e.1)) = [(4, "4th")] := by decide
  simp only [main, initial_eq_005, Exec.bind_eq, Exec.pure_eq, Print_eq_005 _ _ _ _ h1, Exec.bind_ok,
    eraseLoop_eq, if_pos h1, hfilter, Print_eq_005 _ _ _ _ h2]
  rfl

end Main005

/-! ## 006_main.cpp: proofs -/

namespace Main006

theorem Print_eq_006 (v : List Int) (pfx : String) (out : Stdout) (fuel : Nat)
    (h : v.length ≤ fuel) :
    Print fuel pfx v out
      = Exec.ok (out ++ [Tok.str pfx, Tok.endl] ++ v.map Tok.int ++ [Tok.endl]) := by
  obtain ⟨r, hr, hro⟩ := whileLoop_sweep_all v (fun x => [Tok.int x]) (printCond v)
    (printBody v) PrintState.i PrintState.out
    (by intro s hs; simp [printCond, decide_lt_eq_bne hs])
    (by intro s h
        exact ⟨{ i := s.i + 1, out := s.out ++ [Tok.int v[s.i]] },
          by simp [printBody, deref_eq h], rfl, rfl⟩)
    { i := 0, out := out ++ [Tok.str pfx, Tok.endl] } fuel rfl h
  simp [Print, hr, hro, flatten_map_singleton]

theorem removeStep_eq (v : List Int) (fuel : Nat) (h : v.length ≤ fuel) :
    removeStep fuel v
      = Exec.ok (v.filter (fun x => x != 4) ++ v.drop (v.filter (fun x => x != 4)).length,
          (v.filter (fun x => x != 4)).length) := by
  have := Stl.remove_if_eq v (fun x => x == 4) fuel h
  simpa [removeStep, Stl.remove, bne] using this

theorem eraseRemove_eq (v : List Int) (fuel : Nat) (h : v.length ≤ fuel) :
    eraseRemove fuel v = Exec.ok (v.filter (fun x => x != 4)) := by
  have hle := List.length_filter_le (fun x : Int => x != 4) v
  simp only [eraseRemove, Exec.bind_eq, Exec.pure_eq, removeStep_eq v fuel h, Exec.bind_ok,
    Stl.vector_erase]
  rw [if_pos (by simp only [List.length_append, List.length_drop]; omega)]
  simp
  omega

theorem main_eq_006 (fuel : Nat) (h : 4 ≤ fuel) :
    main fuel = Exec.ok (
      [Tok.str "Init.", Tok.endl, Tok.int 0, Tok.int 4, Tok.int 1, Tok.int 2, Tok.endl,
       Tok.str "After remove.", Tok.endl, Tok.int 0, Tok.int 1, Tok.int 2, Tok.int 2, Tok.endl,
       Tok.str "After erase.", Tok.endl, Tok.int 0, Tok.int 1, Tok.int 2, Tok.endl],
      EXIT_SUCCESS) := by
  have h1 : ([0, 4, 1, 2] : List Int).length ≤ fuel := by simpa using h
  have h2 : ([0, 1, 2, 2] : List Int).length ≤ fuel := by simpa using h
  have h3 : ([0, 1, 2] : List Int).length ≤ fuel := by simp; omega
  have hrem : removeStep fuel [0, 4, 1, 2] = Exec.ok ([0, 1, 2, 2], 3) := by
    rw [removeStep_eq _ fuel h1]
    decide
  have hera : Stl.vector_erase ([0, 1, 2, 2] : List Int) 3 ([0, 1, 2, 2] : List Int).length
      = Exec.ok [0, 1, 2] := by decide
  simp only [main, Exec.bind_eq, Exec.pure_eq, Print_eq_006 _ _ _ _ h1, Exec.bind_ok, hrem,
    Print_eq_006 _ _ _ _ h2, hera, Print_eq_006 _ _ _ _ h3]
  rfl

end Main006

/-! ## 007_main.cpp: proofs -/

namespace Main007

theorem Print_eq_007 (v : List Int) (pfx : String) (out : Stdout) (fuel : Nat)
    (h : v.length ≤ fuel) :
    Print fuel pfx v out
      = Exec.ok (out ++ [Tok.str pfx, Tok.endl] ++ v.map Tok.int ++ [Tok.endl]) := by
  obtain ⟨r, hr, hro⟩ := whileLoop_sweep_all v (fun x => [Tok.int x]) (printCond v)
    (printBody v) PrintState.i PrintState.out
    (by intro s hs; simp [printCond, decide_lt_eq_bne hs])
    (by intro s h
        exact ⟨{ i := s.i + 1, out := s.out ++ [Tok.int v[s.i]] },
          by simp [printBody, deref_eq h], rfl, rfl⟩)
    { i := 0, out := out ++ [Tok.str pfx, Tok.endl] } fuel rfl h
  simp [Print, hr, hro, flatten_map_singleton]

theorem fill_eq_007 (k : Nat) :
    Stl.fill (10 + k) (List.replicate 10 (0 : Int)) 0 10 1 = Exec.ok (List.replicate 10 1) := by
  have h := whileLoop_mono
    (fun s : Stl.FillState Int => pure (s.first != 10))
    (fun s => do
      let v ← assign s.v s.first 1
      pure { v := v, first := s.first + 1 })
    10 { v := List.replicate 10 0, first := 0 } { v := List.replicate 10 1, first := 10 }
    (by rfl) k
  simp only [Stl.fill, Exec.bind_eq, Exec.pure_eq] at h ⊢
  rw [h]
  rfl

theorem accumulate_eq_007 (k : Nat) :
    Stl.accumulate (10 + k) (List.replicate 10 (1 : Int)) 0 10 0 accumulate_op
      = Exec.ok 10 := by
  have h := whileLoop_mono
    (fun s : Stl.AccumulateState Int => pure (s.first != 10))
    (fun s => do
      let x ← deref (List.replicate 10 (1 : Int)) s.first
      let init ← accumulate_op s.init x
      pure { first := s.first + 1, init := init })
    10 { first := 0, init := 0 } { first := 10, init := 10 }
    (by rfl) k
  simp only [Stl.accumulate, Exec.bind_eq, Exec.pure_eq] at h ⊢
  rw [h]
  rfl

theorem generate_eq_007 (k : Nat) :
    Stl.generate (10 + k) (List.replicate 10 (1 : Int)) 0 10 counter 0
      = Exec.ok [1, 2, 3, 4, 5, 6, 7, 8, 9, 10] := by
  have h := whileLoop_mono
    (fun s : Stl.GenerateState Int Int => pure (s.first != 10))
    (fun s => do
      let (x, g) ← counter s.g
      let v ← assign s.v s.first x
      pure { v := v, first := s.first + 1, g := g })
    10 { v := List.replicate 10 1, first := 0, g := 0 }
    { v := [1, 2, 3, 4, 5, 6, 7, 8, 9, 10], first := 10, g := 10 }
    (by rfl) k
  simp only [Stl.generate, Exec.bind_eq, Exec.pure_eq] at h ⊢
  rw [h]
  rfl

theorem remove_if_eq_007 (fuel : Nat) (h : 10 ≤ fuel) :
    Stl.remove_if fuel ([1, 2, 3, 4, 5, 6, 7, 8, 9, 10] : List Int) 0 10 divisible_by_3
      = Exec.ok ([1, 2, 4, 5, 7, 8, 10, 8, 9, 10], 7) := by
  have := Stl.remove_if_eq ([1, 2, 3, 4, 5, 6, 7, 8, 9, 10] : List Int) divisible_by_3 fuel
    (by simpa using h)
  rw [show ([1, 2, 3, 4, 5, 6, 7, 8, 9, 10] : List Int).length = 10 from rfl] at this
  rw [this]
  decide

theorem sort_eq_007 (sort : (Int → Int → Bool) → List Int → List Int)
    (hs : Stl.SortContract sort greater) :
    sort greater [1, 2, 4, 5, 7, 8, 10] = [10, 8, 7, 5, 4, 2, 1] := by
  obtain ⟨hperm, hsorted⟩ := hs [1, 2, 4, 5, 7, 8, 10]
  have hsorted' : (sort greater [1, 2, 4, 5, 7, 8, 10]).Sorted (fun a b : Int => b ≤ a) := by
    refine List.Pairwise.imp ?_ hsorted
    intro a b hab
    simpa [greater] using hab
  have hperm' : ([10, 8, 7, 5, 4, 2, 1] : List Int).Perm [1, 2, 4, 5, 7, 8, 10] := by decide
  have hsorted2 : ([10, 8, 7, 5, 4, 2, 1] : List Int).Sorted (fun a b : Int => b ≤ a) := by
    decide
  haveI : IsAntisymm Int (fun a b : Int => b ≤ a) := ⟨fun a b h1 h2 => le_antisymm h2 h1⟩
  exact List.eq_of_perm_of_sorted (hperm.trans hperm'.symm) hsorted' hsorted2

theorem Print_short_007 (v : List Int) (pfx : String) (out : Stdout) (fuel : Nat)
    (h : fuel < v.length) : Print fuel pfx v out = Exec.outOfFuel := by
  have := whileLoop_sweep_short v (printCond v) (printBody v) PrintState.i
    (by intro s hs; simp [printCond, decide_lt_eq_bne hs])
    (by intro s h
        exact ⟨{ i := s.i + 1, out := s.out ++ [Tok.int v[s.i]] },
          by simp [printBody, deref_eq h], rfl⟩)
    fuel { i := 0, out := out ++ [Tok.str pfx, Tok.endl] } (by simpa using h)
  simp [Print, this]

/-- With fuel for ten iterations the program reaches std::sort with the vector
1, 2, 4, 5, 7, 8, 10; what remains is the last call of `Print`. -/
theorem run_before_sort_007 (sort : (Int → Int → Bool) → List Int → List Int) (k : Nat) :
    run sort (10 + k)
      = (Print (10 + k) "After sort." (sort greater [1, 2, 4, 5, 7, 8, 10])
          outputBeforeSort).bind
        fun out => Exec.ok (out, sort greater [1, 2, 4, 5, 7, 8, 10]) := by
  have hl0 : (List.replicate 10 (0 : Int)).length = 10 := rfl
  have hl1 : (List.replicate 10 (1 : Int)).length = 10 := rfl
  have hl2 : ([1, 2, 3, 4, 5, 6, 7, 8, 9, 10] : List Int).length = 10 := rfl
  have hl3 : ([1, 2, 4, 5, 7, 8, 10, 8, 9, 10] : List Int).length = 10 := rfl
  have p0 := fun pfx out => Print_eq_007 (List.replicate 10 (0 : Int)) pfx out (10 + k)
    (by simp)
  have p1 := fun pfx out => Print_eq_007 (List.replicate 10 (1 : Int)) pfx out (10 + k)
    (by simp)
  have p2 := fun pfx out => Print_eq_007 ([1, 2, 3, 4, 5, 6, 7, 8, 9, 10] : List Int) pfx out
    (10 + k) (by simp)
  have p3 := fun pfx out => Print_eq_007 ([1, 2, 4, 5, 7, 8, 10, 8, 9, 10] : List Int) pfx out
    (10 + k) (by simp)
  have p4 := fun pfx out => Print_eq_007 ([1, 2, 4, 5, 7, 8, 10] : List Int) pfx out
    (10 + k) (by simp; omega)
  have hera : Stl.vector_erase ([1, 2, 4, 5, 7, 8, 10, 8, 9, 10] : List Int) 7 10
      = Exec.ok [1, 2, 4, 5, 7, 8, 10] := by decide
  simp only [run, Exec.bind_eq, Exec.pure_eq, hl0, p0, Exec.bind_ok, fill_eq_007 k, hl1, p1,
    accumulate_eq_007 k, generate_eq_007 k, hl2, p2, remove_if_eq_007 (10 + k) (by omega), hl3, p3, hera,
    p4]
  rfl

/-- Result of the statements of 007_main.cpp, for any std::sort that meets its contract. -/
theorem run_eq_007 (sort : (Int → Int → Bool) → List Int → List Int)
    (hs : Stl.SortContract sort greater) (k : Nat) :
    run sort (10 + k) = Exec.ok (
      outputBeforeSort ++ [Tok.str "After sort.", Tok.endl,
       Tok.int 10, Tok.int 8, Tok.int 7, Tok.int 5, Tok.int 4, Tok.int 2, Tok.int 1, Tok.endl],
      [10, 8, 7, 5, 4, 2, 1]) := by
  rw [run_before_sort_007, sort_eq_007 sort hs, Print_eq_007 _ _ _ _ (by simp; omega)]
  rfl

/-- Below ten units of fuel the first call of `Print` runs out of fuel. -/
theorem run_short_007 (sort : (Int → Int → Bool) → List Int → List Int) (fuel : Nat)
    (h : fuel < 10) : run sort fuel = Exec.outOfFuel := by
  have := Print_short_007 (List.replicate 10 (0 : Int)) "Init." [] fuel (by simpa using h)
  simp only [run, Exec.bind_eq, Exec.pure_eq, this, Exec.bind_outOfFuel]

/-- Every run of main of 007_main.cpp either runs out of fuel or exits with EXIT_SUCCESS. -/
theorem main_cases_007 (sort : (Int → Int → Bool) → List Int → List Int) (fuel : Nat) :
    main sort fuel = Exec.outOfFuel ∨ ∃ out, main sort fuel = Exec.ok (out, EXIT_SUCCESS) := by
  by_cases h : fuel < 10
  · left
    simp only [main, Exec.bind_eq, Exec.pure_eq, run_short_007 sort fuel h, Exec.bind_outOfFuel]
  · obtain ⟨k, rfl⟩ : ∃ k, fuel = 10 + k := ⟨fuel - 10, by omega⟩
    by_cases hl : (sort greater [1, 2, 4, 5, 7, 8, 10]).length ≤ 10 + k
    · right
      simp only [main, Exec.bind_eq, Exec.pure_eq, run_before_sort_007, Print_eq_007 _ _ _ _ hl,
        Exec.bind_ok]
      exact ⟨_, rfl⟩
    · left
      have hshort := Print_short_007 (sort greater [1, 2, 4, 5, 7, 8, 10]) "After sort."
        outputBeforeSort (10 + k) (by omega)
      simp only [main, Exec.bind_eq, Exec.pure_eq, run_before_sort_007, hshort,
        Exec.bind_outOfFuel]

/-- Enough fuel for main of 007_main.cpp: ten iterations, or the length of what std::sort
returns if that is more. -/
theorem main_terminates_007 (sort : (Int → Int → Bool) → List Int → List Int) (k : Nat) :
    ∃ out, main sort (10 + (sort greater [1, 2, 4, 5, 7, 8, 10]).length + k)
      = Exec.ok (out, EXIT_SUCCESS) := by
  have hl : (sort greater [1, 2, 4, 5, 7, 8, 10]).length
      ≤ 10 + ((sort greater [1, 2, 4, 5, 7, 8, 10]).length + k) := by omega
  rw [Nat.add_assoc]
  simp only [main, Exec.bind_eq, Exec.pure_eq, run_before_sort_007, Print_eq_007 _ _ _ _ hl,
    Exec.bind_ok]
  exact ⟨_, rfl⟩

end Main007

/-! ## Exit codes and the contract of std::sort: auxiliary facts -/

theorem Main001.main_cases_001 (fuel : Nat) :
    Main001.main fuel = Exec.outOfFuel ∨
      ∃ out, Main001.main fuel = Exec.ok (out, EXIT_SUCCESS) := by
  by_cases h : 4 ≤ fuel
  · exact Or.inr ⟨_, Main001.main_eq_001 fuel h⟩
  · left
    have h4 : fuel < 4 := by omega
    interval_cases fuel <;> rfl

theorem Main003.main_cases_003 (fuel : Nat) :
    Main003.main fuel = Exec.outOfFuel ∨
      ∃ out, Main003.main fuel = Exec.ok (out, EXIT_SUCCESS) := by
  by_cases h : 4 ≤ fuel
  · exact Or.inr ⟨_, Main003.main_eq_003 fuel h⟩
  · left
    have h4 : fuel < 4 := by omega
    interval_cases fuel <;> rfl

theorem Main005.main_cases_005 (fuel : Nat) :
    Main005.main fuel = Exec.outOfFuel ∨
      ∃ out, Main005.main fuel = Exec.ok (out, EXIT_SUCCESS) := by
  by_cases h : 4 ≤ fuel
  · exact Or.inr ⟨_, Main005.main_eq_005 fuel h⟩
  · left
    have h4 : fuel < 4 := by omega
    interval_cases fuel <;> rfl

theorem Main006.main_cases_006 (fuel : Nat) :
    Main006.main fuel = Exec.outOfFuel ∨
      ∃ out, Main006.main fuel = Exec.ok (out, EXIT_SUCCESS) := by
  by_cases h : 4 ≤ fuel
  · exact Or.inr ⟨_, Main006.main_eq_006 fuel h⟩
  · left
    have h4 : fuel < 4 := by omega
    interval_cases fuel <;> rfl

theorem Main007.insertion_sort_contract :
    Stl.SortContract Main007.insertion_sort Main007.greater := by
  intro l
  haveI : IsTotal Int (fun a b => Main007.greater b a = false) :=
    ⟨fun a b => by simp only [Main007.greater, decide_eq_false_iff_not]; omega⟩
  haveI : IsTrans Int (fun a b => Main007.greater b a = false) :=
    ⟨fun a b c => by simp only [Main007.greater, decide_eq_false_iff_not]; omega⟩
  exact ⟨List.perm_insertionSort _ l, List.sorted_insertionSort _ l⟩

/-! ## The claims -/

/-- C1. In 003_main.cpp, `l.remove (x)` removes all matching values and keeps the relative
order of the others: for every list `l` and value `x`, with fuel for one iteration per
node, the list left is `l` without the elements equal to `x`, in the original order.  For
the list 0, 4, 1, 2 of the program and `x = 4` the list left is 0, 1, 2, and the program
prints 012 under "After remove.". -/
theorem C1_list_remove_filters :
    (∀ (l : List Int) (x : Int) (k : Nat),
      Stl.list_remove (l.length + k) l x = Exec.ok (l.filter (fun y => decide (y ≠ x)))) ∧
    (∀ k : Nat, Stl.list_remove (4 + k) [0, 4, 1, 2] 4 = Exec.ok [0, 1, 2]) ∧
    (∀ k : Nat, Main003.main (4 + k) = Exec.ok (
      [Tok.str "Init.", Tok.endl, Tok.int 0, Tok.int 4, Tok.int 1, Tok.int 2, Tok.endl,
       Tok.str "After remove.", Tok.endl, Tok.int 0, Tok.int 1, Tok.int 2, Tok.endl],
      EXIT_SUCCESS)) ∧
    render
      [Tok.str "Init.", Tok.endl, Tok.int 0, Tok.int 4, Tok.int 1, Tok.int 2, Tok.endl,
       Tok.str "After remove.", Tok.endl, Tok.int 0, Tok.int 1, Tok.int 2, Tok.endl]
      = "Init.\n0412\nAfter remove.\n012\n" := by
  refine ⟨?_, ?_, ?_, by decide⟩
  · intro l x k
    rw [Main003.list_remove_eq l x _ (by omega)]
    congr 2
    funext y
    by_cases hy : y = x <;> simp [hy]
  · intro k
    rw [Main003.list_remove_eq _ _ _ (by simp)]
    decide
  · intro k
    exact Main003.main_eq_003 _ (by omega)

/-- Instance of C1: removing 7 from the list 7, 1, 7, 7, 2 leaves 1, 2. -/
theorem C1_list_remove_filters_witness :
    Stl.list_remove (5 + 0) [7, 1, 7, 7, 2] 7 = Exec.ok [1, 2] :=
  C1_list_remove_filters.1 [7, 1, 7, 7, 2] 7 0

/-- C2. In 006_main.cpp, the erase-remove idiom (`x = std::remove (v.begin (), v.end (), 4)`
followed by `v.erase (x, v.end ())`) leaves every vector equal to the original without the
elements equal to 4, the others in their original order.  For the vector 0, 4, 1, 2 of the
program the result is 0, 1, 2, printed as 012 under "After erase.". -/
theorem C2_erase_remove_idiom :
    (∀ (v : List Int) (k : Nat),
      Main006.eraseRemove (v.length + k) v = Exec.ok (v.filter (fun y => decide (y ≠ 4)))) ∧
    (∀ k : Nat, Main006.eraseRemove (4 + k) [0, 4, 1, 2] = Exec.ok [0, 1, 2]) ∧
    (∀ k : Nat, Main006.main (4 + k) = Exec.ok (
      [Tok.str "Init.", Tok.endl, Tok.int 0, Tok.int 4, Tok.int 1, Tok.int 2, Tok.endl,
       Tok.str "After remove.", Tok.endl, Tok.int 0, Tok.int 1, Tok.int 2, Tok.int 2, Tok.endl,
       Tok.str "After erase.", Tok.endl, Tok.int 0, Tok.int 1, Tok.int 2, Tok.endl],
      EXIT_SUCCESS)) ∧
    render
      [Tok.str "Init.", Tok.endl, Tok.int 0, Tok.int 4, Tok.int 1, Tok.int 2, Tok.endl,
       Tok.str "After remove.", Tok.endl, Tok.int 0, Tok.int 1, Tok.int 2, Tok.int 2, Tok.endl,
       Tok.str "After erase.", Tok.endl, Tok.int 0, Tok.int 1, Tok.int 2, Tok.endl]
      = "Init.\n0412\nAfter remove.\n0122\nAfter erase.\n012\n" := by
  refine ⟨?_, ?_, ?_, by decide⟩
  · intro v k
    rw [Main006.eraseRemove_eq v _ (by omega)]
    congr 2
    funext y
    by_cases hy : y = 4 <;> simp [hy]
  · intro k
    rw [Main006.eraseRemove_eq _ _ (by simp)]
    decide
  · intro k
    exact Main006.main_eq_006 _ (by omega)

/-- Instance of C2: the idiom turns 4, 4, 5, 4, 6 into 5, 6. -/
theorem C2_erase_remove_idiom_witness :
    Main006.eraseRemove (5 + 0) [4, 4, 5, 4, 6] = Exec.ok [5, 6] :=
  C2_erase_remove_idiom.1 [4, 4, 5, 4, 6] 0

/-- C3. In 005_main.cpp, the erase loop erases exactly the entries whose key is less than 4:
for every map `m`, with fuel for one iteration per entry, the loop leaves the entries of `m`
with key at least 4, in their order and with their values, and no entry with a key below 4.
The map of the program is 1:"1st", 2:"2nd", 3:"3rd", 4:"4th", and the program prints 4:4th
under "After erase.". -/
theorem C3_map_erase_loop :
    (∀ (m : List (Int × String)) (k : Nat),
      ∃ m', Main005.eraseLoop (m.length + k) m = Exec.ok m' ∧
        m' = m.filter (fun e => decide (4 ≤ e.1)) ∧
        (∀ e, e ∈ m' ↔ (e ∈ m ∧ 4 ≤ e.1)) ∧
        (∀ e, ¬ (e ∈ m' ∧ e.1 < 4))) ∧
    Main005.initial = [(1, "1st"), (2, "2nd"), (3, "3rd"), (4, "4th")] ∧
    (∀ k : Nat, Main005.eraseLoop (4 + k) Main005.initial = Exec.ok [(4, "4th")]) ∧
    (∀ k : Nat, Main005.main (4 + k) = Exec.ok (
      [Tok.str "Init.", Tok.endl,
       Tok.int 1, Tok.str ":", Tok.str "1st", Tok.str " ",
       Tok.int 2, Tok.str ":", Tok.str "2nd", Tok.str " ",
       Tok.int 3, Tok.str ":", Tok.str "3rd", Tok.str " ",
       Tok.int 4, Tok.str ":", Tok.str "4th", Tok.str " ", Tok.endl,
       Tok.str "After erase.", Tok.endl,
       Tok.int 4, Tok.str ":", Tok.str "4th", Tok.str " ", Tok.endl], EXIT_SUCCESS)) ∧
    render
      [Tok.str "Init.", Tok.endl,
       Tok.int 1, Tok.str ":", Tok.str "1st", Tok.str " ",
       Tok.int 2, Tok.str ":", Tok.str "2nd", Tok.str " ",
       Tok.int 3, Tok.str ":", Tok.str "3rd", Tok.str " ",
       Tok.int 4, Tok.str ":", Tok.str "4th", Tok.str " ", Tok.endl,
       Tok.str "After erase.", Tok.endl,
       Tok.int 4, Tok.str ":", Tok.str "4th", Tok.str " ", Tok.endl]
      = "Init.\n1:1st 2:2nd 3:3rd 4:4th \nAfter erase.\n4:4th \n" := by
  refine ⟨?_, Main005.initial_eq_005, ?_, ?_, by decide⟩
  · intro m k
    refine ⟨m.filter (fun e => decide (4 ≤ e.1)), ?_, rfl, ?_, ?_⟩
    · rw [Main005.eraseLoop_eq, if_pos (by omega)]
    · intro e
      simp [List.mem_filter]
    · intro e
      simp only [List.mem_filter, decide_eq_true_eq]
      omega
  · intro k
    rw [Main005.eraseLoop_eq, Main005.initial_eq_005, if_pos (by simp)]
    decide
  · intro k
    exact Main005.main_eq_005 _ (by omega)

/-- Instance of C3: from the map 2:"a", 4:"b", 9:"c" the loop keeps 4:"b", 9:"c". -/
theorem C3_map_erase_loop_witness :
    ∃ m', Main005.eraseLoop (3 + 0) [(2, "a"), (4, "b"), (9, "c")] = Exec.ok m' ∧
      m' = [(2, "a"), (4, "b"), (9, "c")].filter (fun e => decide (4 ≤ e.1)) ∧
      (∀ e, e ∈ m' ↔ (e ∈ [(2, "a"), (4, "b"), (9, "c")] ∧ 4 ≤ e.1)) ∧
      (∀ e, ¬ (e ∈ m' ∧ e.1 < 4)) :=
  C3_map_erase_loop.1 [(2, "a"), (4, "b"), (9, "c")] 0

/-- C4. In 004_main.cpp, the operator < on Id is a strict weak ordering, the lexicographic
order on (prefix, number): it is irreflexive, transitive and asymmetric; two Ids are
incomparable exactly when their prefixes and their numbers are equal; and incomparability is
an equivalence relation. -/
theorem C4_id_less_strict_weak_order :
    (∀ a : Main004.Id, Main004.Id.lt a a = false) ∧
    (∀ a b c : Main004.Id, Main004.Id.lt a b = true → Main004.Id.lt b c = true →
      Main004.Id.lt a c = true) ∧
    (∀ a b : Main004.Id, Main004.Id.lt a b = true → Main004.Id.lt b a = false) ∧
    (∀ a b : Main004.Id, (Main004.Id.lt a b = false ∧ Main004.Id.lt b a = false) ↔
      (a.pfx = b.pfx ∧ a.number = b.number)) ∧
    (∀ a b : Main004.Id, Main004.Id.lt a b = true ↔
      (Main004.string_lt a.pfx b.pfx = true ∨ (a.pfx = b.pfx ∧ a.number < b.number))) ∧
    Equivalence (fun a b : Main004.Id =>
      Main004.Id.lt a b = false ∧ Main004.Id.lt b a = false) := by
  refine ⟨Main004.Id.lt_irrefl, Main004.Id.lt_trans, Main004.Id.lt_asymm,
    Main004.Id.incomparable_iff, Main004.Id.lt_iff, ?_⟩
  refine ⟨fun a => ⟨Main004.Id.lt_irrefl a, Main004.Id.lt_irrefl a⟩, fun h => ⟨h.2, h.1⟩, ?_⟩
  intro a b c hab hbc
  rw [Main004.Id.incomparable_iff] at hab hbc ⊢
  exact ⟨hab.1.trans hbc.1, hab.2.trans hbc.2⟩

/-- Instance of C4 on the keys of the program and a third key: BC/223355 is below CD/678543,
which is below CD/678544, so BC/223355 is below CD/678544 and not above CD/678543. -/
theorem C4_id_less_strict_weak_order_witness :
    Main004.Id.lt { pfx := [66, 67], number := 223355 } { pfx := [67, 68], number := 678543 }
      = true ∧
    Main004.Id.lt { pfx := [67, 68], number := 678543 } { pfx := [67, 68], number := 678544 }
      = true ∧
    Main004.Id.lt { pfx := [66, 67], number := 223355 } { pfx := [67, 68], number := 678544 }
      = true ∧
    Main004.Id.lt { pfx := [67, 68], number := 678543 } { pfx := [66, 67], number := 223355 }
      = false :=
  ⟨by decide, by decide,
   C4_id_less_strict_weak_order.2.1 { pfx := [66, 67], number := 223355 }
     { pfx := [67, 68], number := 678543 } { pfx := [67, 68], number := 678544 }
     (by decide) (by decide),
   C4_id_less_strict_weak_order.2.2.1 { pfx := [66, 67], number := 223355 }
     { pfx := [67, 68], number := 678543 } (by decide)⟩

/-- C5. In 001_main.cpp, the six ways of iterating the vector (index, range-based for with
int, range-based for with auto, iterator with `<`, iterator with `!=`, raw pointer) visit the
same elements in the same order: for every vector, with fuel for one iteration per element,
each loop emits exactly the elements of the vector from first to last.  For the vector
0, 4, 1, 2 of the program each of the lines "1: " to "6: " is followed by 0412. -/
theorem C5_six_iterations_agree :
    (∀ (v : List Int) (out : Stdout) (k : Nat),
      Main001.loop1 (v.length + k) v out = Exec.ok (out ++ v.map Tok.int) ∧
      Main001.loop2 (v.length + k) v out = Exec.ok (out ++ v.map Tok.int) ∧
      Main001.loop3 (v.length + k) v out = Exec.ok (out ++ v.map Tok.int) ∧
      Main001.loop4 (v.length + k) v out = Exec.ok (out ++ v.map Tok.int) ∧
      Main001.loop5 (v.length + k) v out = Exec.ok (out ++ v.map Tok.int) ∧
      Main001.loop6 (v.length + k) v out = Exec.ok (out ++ v.map Tok.int)) ∧
    Main001.initial = [0, 4, 1, 2] ∧
    (∀ k : Nat, Main001.main (4 + k) = Exec.ok (
      [Tok.str "1: ", Tok.int 0, Tok.int 4, Tok.int 1, Tok.int 2, Tok.endl,
       Tok.str "2: ", Tok.int 0, Tok.int 4, Tok.int 1, Tok.int 2, Tok.endl,
       Tok.str "3: ", Tok.int 0, Tok.int 4, Tok.int 1, Tok.int 2, Tok.endl,
       Tok.str "4: ", Tok.int 0, Tok.int 4, Tok.int 1, Tok.int 2, Tok.endl,
       Tok.str "5: ", Tok.int 0, Tok.int 4, Tok.int 1, Tok.int 2, Tok.endl,
       Tok.str "6: ", Tok.int 0, Tok.int 4, Tok.int 1, Tok.int 2, Tok.endl], EXIT_SUCCESS)) ∧
    render
      [Tok.str "1: ", Tok.int 0, Tok.int 4, Tok.int 1, Tok.int 2, Tok.endl,
       Tok.str "2: ", Tok.int 0, Tok.int 4, Tok.int 1, Tok.int 2, Tok.endl,
       Tok.str "3: ", Tok.int 0, Tok.int 4, Tok.int 1, Tok.int 2, Tok.endl,
       Tok.str "4: ", Tok.int 0, Tok.int 4, Tok.int 1, Tok.int 2, Tok.endl,
       Tok.str "5: ", Tok.int 0, Tok.int 4, Tok.int 1, Tok.int 2, Tok.endl,
       Tok.str "6: ", Tok.int 0, Tok.int 4, Tok.int 1, Tok.int 2, Tok.endl]
      = "1: 0412\n2: 0412\n3: 0412\n4: 0412\n5: 0412\n6: 0412\n" := by
  refine ⟨?_, by decide, ?_, by decide⟩
  · intro v out k
    have h : v.length ≤ v.length + k := by omega
    exact ⟨Main001.loop1_eq v out _ h, Main001.rangeFor_eq v out _ h,
      Main001.rangeFor_eq v out _ h, Main001.loop4_eq v out _ h, Main001.loop5_eq v out _ h,
      Main001.loop6_eq v out _ h⟩
  · intro k
    exact Main001.main_eq_001 _ (by omega)

/-- Instance of C5: on the vector 3, 1, 2 the first and the last loop both emit 3, 1, 2. -/
theorem C5_six_iterations_agree_witness :
    Main001.loop1 (3 + 0) [3, 1, 2] [] = Exec.ok [Tok.int 3, Tok.int 1, Tok.int 2] ∧
    Main001.loop6 (3 + 0) [3, 1, 2] [] = Exec.ok [Tok.int 3, Tok.int 1, Tok.int 2] :=
  ⟨(C5_six_iterations_agree.1 [3, 1, 2] [] 0).1,
   (C5_six_iterations_agree.1 [3, 1, 2] [] 0).2.2.2.2.2⟩

/-- C6. Each program runs to completion.  The six loops of 001_main.cpp and the loop of each
`Print` helper end on every input once they have fuel for one iteration per element; every
main function ends once it has fuel for its longest loop (for 007_main.cpp that depends on
what std::sort returns).  The erase loop of 005_main.cpp ends for every map and performs
exactly one iteration per entry of the original map: with that much fuel it ends having
counted that many iterations, with less it does not end. -/
theorem C6_programs_terminate :
    (∀ (v : List Int) (out : Stdout) (k : Nat),
      (∃ r, Main001.loop1 (v.length + k) v out = Exec.ok r) ∧
      (∃ r, Main001.loop2 (v.length + k) v out = Exec.ok r) ∧
      (∃ r, Main001.loop3 (v.length + k) v out = Exec.ok r) ∧
      (∃ r, Main001.loop4 (v.length + k) v out = Exec.ok r) ∧
      (∃ r, Main001.loop5 (v.length + k) v out = Exec.ok r) ∧
      (∃ r, Main001.loop6 (v.length + k) v out = Exec.ok r)) ∧
    (∀ (l : List Int) (pfx : String) (out : Stdout) (k : Nat),
      ∃ r, Main003.Print (l.length + k) pfx l out = Exec.ok r) ∧
    (∀ (m : List (Int × String)) (pfx : String) (out : Stdout) (k : Nat),
      ∃ r, Main005.Print (m.length + k) pfx m out = Exec.ok r) ∧
    (∀ (v : List Int) (pfx : String) (out : Stdout) (k : Nat),
      ∃ r, Main006.Print (v.length + k) pfx v out = Exec.ok r) ∧
    (∀ (v : List Int) (pfx : String) (out : Stdout) (k : Nat),
      ∃ r, Main007.Print (v.length + k) pfx v out = Exec.ok r) ∧
    (∀ (m : List (Int × String)) (k : Nat),
      ∃ r, Main005.eraseLoop (m.length + k) m = Exec.ok r) ∧
    (∀ (m : List (Int × String)) (fuel : Nat),
      Main005.eraseIters fuel m
        = if m.length ≤ fuel then Exec.ok m.length else Exec.outOfFuel) ∧
    (∀ (m : List (Int × String)) (fuel : Nat),
      Main005.eraseLoop fuel m
        = if m.length ≤ fuel then Exec.ok (m.filter (fun e => decide (4 ≤ e.1)))
          else Exec.outOfFuel) ∧
    (∀ k : Nat, ∃ r, Main001.main (4 + k) = Exec.ok r) ∧
    (∀ fuel : Nat, ∃ r, Main002.main fuel = Exec.ok r) ∧
    (∀ k : Nat, ∃ r, Main003.main (4 + k) = Exec.ok r) ∧
    (∀ fuel : Nat, ∃ r, Main004.main fuel = Exec.ok r) ∧
    (∀ k : Nat, ∃ r, Main005.main (4 + k) = Exec.ok r) ∧
    (∀ k : Nat, ∃ r, Main006.main (4 + k) = Exec.ok r) ∧
    (∀ sort : (Int → Int → Bool) → List Int → List Int,
      ∃ n : Nat, ∀ k : Nat, ∃ r, Main007.main sort (n + k) = Exec.ok r) := by
  refine ⟨?_, ?_, ?_, ?_, ?_, ?_, Main005.eraseIters_eq, Main005.eraseLoop_eq, ?_, ?_, ?_, ?_,
    ?_, ?_, ?_⟩
  · intro v out k
    have h : v.length ≤ v.length + k := by omega
    exact ⟨⟨_, Main001.loop1_eq v out _ h⟩, ⟨_, Main001.rangeFor_eq v out _ h⟩,
      ⟨_, Main001.rangeFor_eq v out _ h⟩, ⟨_, Main001.loop4_eq v out _ h⟩,
      ⟨_, Main001.loop5_eq v out _ h⟩, ⟨_, Main001.loop6_eq v out _ h⟩⟩
  · intro l pfx out k
    exact ⟨_, Main003.Print_eq_003 l pfx out _ (by omega)⟩
  · intro m pfx out k
    exact ⟨_, Main005.Print_eq_005 m pfx out _ (by omega)⟩
  · intro v pfx out k
    exact ⟨_, Main006.Print_eq_006 v pfx out _ (by omega)⟩
  · intro v pfx out k
    exact ⟨_, Main007.Print_eq_007 v pfx out _ (by omega)⟩
  · intro m k
    exact ⟨_, by rw [Main005.eraseLoop_eq, if_pos (by omega)]⟩
  · intro k
    exact ⟨_, Main001.main_eq_001 _ (by omega)⟩
  · intro fuel
    exact ⟨_, rfl⟩
  · intro k
    exact ⟨_, Main003.main_eq_003 _ (by omega)⟩
  · intro fuel
    exact ⟨_, rfl⟩
  · intro k
    exact ⟨_, Main005.main_eq_005 _ (by omega)⟩
  · intro k
    exact ⟨_, Main006.main_eq_006 _ (by omega)⟩
  · intro sort
    refine ⟨10 + (sort Main007.greater [1, 2, 4, 5, 7, 8, 10]).length, fun k => ?_⟩
    obtain ⟨out, h⟩ := Main007.main_terminates_007 sort k
    exact ⟨_, h⟩

/-- Instance of C6: on the map 2:"a", 4:"b", 9:"c" the erase loop makes three iterations
with fuel 3 and runs out of fuel with fuel 2. -/
theorem C6_programs_terminate_witness :
    (Main005.eraseIters 3 [(2, "a"), (4, "b"), (9, "c")]
      = if ([(2, "a"), (4, "b"), (9, "c")] : List (Int × String)).length ≤ 3
        then Exec.ok ([(2, "a"), (4, "b"), (9, "c")] : List (Int × String)).length
        else Exec.outOfFuel) ∧
    (Main005.eraseIters 2 [(2, "a"), (4, "b"), (9, "c")]
      = if ([(2, "a"), (4, "b"), (9, "c")] : List (Int × String)).length ≤ 2
        then Exec.ok ([(2, "a"), (4, "b"), (9, "c")] : List (Int × String)).length
        else Exec.outOfFuel) :=
  ⟨C6_programs_terminate.2.2.2.2.2.2.1 [(2, "a"), (4, "b"), (9, "c")] 3,
   C6_programs_terminate.2.2.2.2.2.2.1 [(2, "a"), (4, "b"), (9, "c")] 2⟩

/-- C7. The exit code is always success.  EXIT_SUCCESS is 0; whatever the fuel, each of the
seven main functions either is cut short by the fuel or returns EXIT_SUCCESS, so no run
returns another value or meets undefined behaviour; and with enough fuel each of them
returns EXIT_SUCCESS. -/
theorem C7_exit_code_success :
    EXIT_SUCCESS = 0 ∧
    (∀ fuel : Nat, Main001.main fuel = Exec.outOfFuel ∨
      ∃ out, Main001.main fuel = Exec.ok (out, EXIT_SUCCESS)) ∧
    (∀ fuel : Nat, Main002.main fuel = Exec.ok ([], EXIT_SUCCESS)) ∧
    (∀ fuel : Nat, Main003.main fuel = Exec.outOfFuel ∨
      ∃ out, Main003.main fuel = Exec.ok (out, EXIT_SUCCESS)) ∧
    (∀ fuel : Nat, Main004.main fuel = Exec.ok ([], EXIT_SUCCESS)) ∧
    (∀ fuel : Nat, Main005.main fuel = Exec.outOfFuel ∨
      ∃ out, Main005.main fuel = Exec.ok (out, EXIT_SUCCESS)) ∧
    (∀ fuel : Nat, Main006.main fuel = Exec.outOfFuel ∨
      ∃ out, Main006.main fuel = Exec.ok (out, EXIT_SUCCESS)) ∧
    (∀ (sort : (Int → Int → Bool) → List Int → List Int) (fuel : Nat),
      Main007.main sort fuel = Exec.outOfFuel ∨
      ∃ out, Main007.main sort fuel = Exec.ok (out, EXIT_SUCCESS)) ∧
    (∀ k : Nat, ∃ out, Main001.main (4 + k) = Exec.ok (out, EXIT_SUCCESS)) ∧
    (∀ k : Nat, ∃ out, Main003.main (4 + k) = Exec.ok (out, EXIT_SUCCESS)) ∧
    (∀ k : Nat, ∃ out, Main005.main (4 + k) = Exec.ok (out, EXIT_SUCCESS)) ∧
    (∀ k : Nat, ∃ out, Main006.main (4 + k) = Exec.ok (out, EXIT_SUCCESS)) ∧
    (∀ sort : (Int → Int → Bool) → List Int → List Int,
      ∃ n : Nat, ∀ k : Nat, ∃ out, Main007.main sort (n + k) = Exec.ok (out, EXIT_SUCCESS)) := by
  refine ⟨rfl, Main001.main_cases_001, fun _ => rfl, Main003.main_cases_003, fun _ => rfl,
    Main005.main_cases_005, Main006.main_cases_006, Main007.main_cases_007, ?_, ?_, ?_, ?_, ?_⟩
  · intro k
    exact ⟨_, Main001.main_eq_001 _ (by omega)⟩
  · intro k
    exact ⟨_, Main003.main_eq_003 _ (by omega)⟩
  · intro k
    exact ⟨_, Main005.main_eq_005 _ (by omega)⟩
  · intro k
    exact ⟨_, Main006.main_eq_006 _ (by omega)⟩
  · intro sort
    exact ⟨10 + (sort Main007.greater [1, 2, 4, 5, 7, 8, 10]).length,
      fun k => Main007.main_terminates_007 sort k⟩

/-- Instance of C7: with fuel 4 and with fuel 1 the program 006_main.cpp does not end in
another way than running out of fuel or returning EXIT_SUCCESS. -/
theorem C7_exit_code_success_witness :
    (Main006.main 4 = Exec.outOfFuel ∨ ∃ out, Main006.main 4 = Exec.ok (out, EXIT_SUCCESS)) ∧
    (Main006.main 1 = Exec.outOfFuel ∨ ∃ out, Main006.main 1 = Exec.ok (out, EXIT_SUCCESS)) :=
  ⟨C7_exit_code_success.2.2.2.2.2.2.1 4, C7_exit_code_success.2.2.2.2.2.2.1 1⟩

/-- C8. In 007_main.cpp, for any std::sort that meets its contract for std::greater<long>,
after generate (the counter yields 1, 2, ..., 10), remove_if with the predicate `!(v % 3)`,
erase of the tail and sort, the vector is 10, 8, 7, 5, 4, 2, 1: it is strictly descending
and its elements are exactly the integers from 1 to 10 that 3 does not divide, each once. -/
theorem C8_vector_after_sort (sort : (Int → Int → Bool) → List Int → List Int)
    (hs : Stl.SortContract sort Main007.greater) (k : Nat) :
    ∃ v : List Int,
      Main007.run sort (10 + k) = Exec.ok (
        Main007.outputBeforeSort ++ [Tok.str "After sort.", Tok.endl] ++ v.map Tok.int
          ++ [Tok.endl], v) ∧
      v = [10, 8, 7, 5, 4, 2, 1] ∧
      v.Pairwise (fun a b => a > b) ∧
      (∀ n : Int, n ∈ v ↔ (1 ≤ n ∧ n ≤ 10 ∧ ¬ (3 ∣ n))) ∧
      v.Nodup := by
  refine ⟨[10, 8, 7, 5, 4, 2, 1], Main007.run_eq_007 sort hs k, rfl, by decide, ?_, by decide⟩
  intro n
  simp only [List.mem_cons, List.mem_singleton, List.not_mem_nil, or_false]
  omega

/-- Instance of C8 with insertion sort in the place of std::sort. -/
theorem C8_vector_after_sort_witness :
    Stl.SortContract Main007.insertion_sort Main007.greater ∧
    ∃ v : List Int,
      Main007.run Main007.insertion_sort (10 + 0) = Exec.ok (
        Main007.outputBeforeSort ++ [Tok.str "After sort.", Tok.endl] ++ v.map Tok.int
          ++ [Tok.endl], v) ∧
      v = [10, 8, 7, 5, 4, 2, 1] ∧
      v.Pairwise (fun a b => a > b) ∧
      (∀ n : Int, n ∈ v ↔ (1 ≤ n ∧ n ≤ 10 ∧ ¬ (3 ∣ n))) ∧
      v.Nodup :=
  ⟨Main007.insertion_sort_contract,
   C8_vector_after_sort Main007.insertion_sort Main007.insertion_sort_contract 0⟩

/-- C9. In 006_main.cpp, std::remove alone does not shrink the vector: for every vector `v`,
after `x = std::remove (v.begin (), v.end (), 4)` the size is unchanged, the offset of `x`
from `v.begin ()` is the number of elements of the original that differ from 4, and the
elements before `x` are the original elements that differ from 4, in their order (the
elements from `x` on are the old ones).  For the vector 0, 4, 1, 2 the vector after
std::remove is 0, 1, 2, 2 with `x` at offset 3, printed as 0122 under "After remove.". -/
theorem C9_remove_keeps_size :
    (∀ (v : List Int) (k : Nat),
      ∃ (v' : List Int) (x : Nat),
        Main006.removeStep (v.length + k) v = Exec.ok (v', x) ∧
        v'.length = v.length ∧
        x = v.countP (fun y => decide (y ≠ 4)) ∧
        v'.take x = v.filter (fun y => decide (y ≠ 4)) ∧
        v'.drop x = v.drop x) ∧
    (∀ k : Nat, Main006.removeStep (4 + k) [0, 4, 1, 2] = Exec.ok ([0, 1, 2, 2], 3)) ∧
    (∀ (out : Stdout) (k : Nat), Main006.Print (4 + k) "After remove." [0, 1, 2, 2] out
      = Exec.ok (out ++ [Tok.str "After remove.", Tok.endl, Tok.int 0, Tok.int 1, Tok.int 2,
          Tok.int 2, Tok.endl])) ∧
    render [Tok.str "After remove.", Tok.endl, Tok.int 0, Tok.int 1, Tok.int 2, Tok.int 2,
      Tok.endl] = "After remove.\n0122\n" := by
  refine ⟨?_, ?_, ?_, by decide⟩
  · intro v k
    have hf : (fun y : Int => decide (y ≠ 4)) = (fun y : Int => y != 4) := by
      funext y
      by_cases hy : y = 4 <;> simp [hy]
    have hle := List.length_filter_le (fun y : Int => y != 4) v
    refine ⟨_, _, Main006.removeStep_eq v _ (by omega), ?_, ?_, ?_, ?_⟩
    · simp only [List.length_append, List.length_drop]
      omega
    · rw [hf, List.countP_eq_length_filter]
    · rw [hf, List.take_left']
      rfl
    · rw [List.drop_left']
      rfl
  · intro k
    rw [Main006.removeStep_eq _ _ (by simp)]
    decide
  · intro out k
    rw [Main006.Print_eq_006 _ _ _ _ (by simp)]
    simp

/-- Instance of C9: on the vector 4, 4, 5, 4, 6 std::remove keeps the size 5, returns the
iterator at the offset that counts the elements other than 4, and puts those elements
before it. -/
theorem C9_remove_keeps_size_witness :
    ∃ (v' : List Int) (x : Nat),
      Main006.removeStep (5 + 0) [4, 4, 5, 4, 6] = Exec.ok (v', x) ∧
      v'.length = 5 ∧
      x = [4, 4, 5, 4, 6].countP (fun y : Int => decide (y ≠ 4)) ∧
      v'.take x = [4, 4, 5, 4, 6].filter (fun y : Int => decide (y ≠ 4)) ∧
      v'.drop x = [4, 4, 5, 4, 6].drop x :=
  C9_remove_keeps_size.1 [4, 4, 5, 4, 6] 0

end StlSnippets
